import Mathlib

/-!
# fabric-token-sdk: vault keys and the zkatdlog proof engine

## `token/services/vault/keys/keys.go`

A shallow embedding of the package `keys`, together with the routines of the
Go standard library that it calls (`unicode/utf8`, `strconv`).

* a Go `string` is a list of bytes (`GoString`), a byte is a `Fin 256`;
* a Go `rune` and a Go `int` are mathematical integers; the `int` is the
  64-bit one, and the width is made explicit where the code converts
  (`uint32(index)`);
* a Go `error` result is an `Option Error` (`none` is `nil`), a
  `(value, error)` result is an `Except Error value`;
* a formatted error message is a constructor that carries the arguments of
  the format string.

## `token/core/zkatdlog/crypto`

The proof engine is known by its tests and by the specification only. Its
model is the namespace `Crypto`.
-/

set_option autoImplicit false

namespace Keys

/-- A Go `byte`. -/
abbrev Byte := Fin 256

/-- A Go `string`: an immutable sequence of bytes. -/
abbrev GoString := List Byte

deriving instance DecidableEq for Except

/-- The bytes of an ASCII string literal of the source. -/
def ascii (s : String) : GoString := s.data.map (fun c => Fin.ofNat c.toNat)

/-! ## `unicode/utf8` (Go standard library) -/

namespace utf8

/-- The "error" rune, U+FFFD. -/
def RuneError : Nat := 0xFFFD
/-- Characters below `RuneSelf` are represented as themselves in a single byte. -/
def RuneSelf : Nat := 0x80
/-- Maximum valid Unicode code point, U+10FFFF. -/
def MaxRune : Nat := 0x10FFFF

def surrogateMin : Nat := 0xD800
def surrogateMax : Nat := 0xDFFF

def maskx : Nat := 0x3F
def mask2 : Nat := 0x1F
def mask3 : Nat := 0x0F
def mask4 : Nat := 0x07

def rune1Max : Nat := 0x7F
def rune2Max : Nat := 0x7FF
def rune3Max : Nat := 0xFFFF

/-- The default lowest continuation byte. -/
def locb : Nat := 0x80
/-- The default highest continuation byte. -/
def hicb : Nat := 0xBF

/-- Invalid: size 1. -/
def xx : Nat := 0xF1
/-- ASCII: size 1. -/
def as : Nat := 0xF0
/-- Accept 0, size 2. -/
def s1 : Nat := 0x02
/-- Accept 1, size 3. -/
def s2 : Nat := 0x13
/-- Accept 0, size 3. -/
def s3 : Nat := 0x03
/-- Accept 2, size 3. -/
def s4 : Nat := 0x23
/-- Accept 3, size 4. -/
def s5 : Nat := 0x34
/-- Accept 0, size 4. -/
def s6 : Nat := 0x04
/-- Accept 4, size 4. -/
def s7 : Nat := 0x44

/-- The table `first`: information about the first byte of a UTF-8 sequence. -/
def first (b : Byte) : Nat :=
  if b.val < 0x80 then as          -- 0x00-0x7F
  else if b.val < 0xC2 then xx     -- 0x80-0xC1
  else if b.val < 0xE0 then s1     -- 0xC2-0xDF
  else if b.val = 0xE0 then s2     -- 0xE0
  else if b.val < 0xED then s3     -- 0xE1-0xEC
  else if b.val = 0xED then s4     -- 0xED
  else if b.val < 0xF0 then s3     -- 0xEE-0xEF
  else if b.val = 0xF0 then s5     -- 0xF0
  else if b.val < 0xF4 then s6     -- 0xF1-0xF3
  else if b.val = 0xF4 then s7     -- 0xF4
  else xx                          -- 0xF5-0xFF

/-- The range of valid values for the second byte of a UTF-8 sequence. -/
structure acceptRange where
  lo : Nat
  hi : Nat
deriving DecidableEq, Repr

/-- The table `acceptRanges` (entries 5..15 are zero). -/
def acceptRanges (i : Nat) : acceptRange :=
  match i with
  | 0 => ⟨locb, hicb⟩
  | 1 => ⟨0xA0, hicb⟩
  | 2 => ⟨locb, 0x9F⟩
  | 3 => ⟨0x90, hicb⟩
  | 4 => ⟨locb, 0x8F⟩
  | _ => ⟨0, 0⟩

/-- The loop of `utf8.ValidString`, on the part `s[i:]` of the string that is
still to be read. The fuel bounds the number of iterations; each iteration
reads at least one byte. -/
def validLoop : Nat → GoString → Bool
  | 0, _ => true
  | fuel + 1, s =>
    match s with
    | [] => true
    | si :: rest =>
      if si.val < RuneSelf then validLoop fuel rest
      else
        let x := first si
        if x = xx then false
        else
          let size := x &&& 7
          if s.length < size then false
          else
            let accept := acceptRanges (x >>> 4)
            match rest with
            | [] => false
            | c1 :: rest1 =>
              if c1.val < accept.lo || accept.hi < c1.val then false
              else if size = 2 then validLoop fuel rest1
              else
                match rest1 with
                | [] => false
                | c2 :: rest2 =>
                  if c2.val < locb || hicb < c2.val then false
                  else if size = 3 then validLoop fuel rest2
                  else
                    match rest2 with
                    | [] => false
                    | c3 :: rest3 =>
                      if c3.val < locb || hicb < c3.val then false
                      else validLoop fuel rest3

/-- `utf8.ValidString`: reports whether `s` consists entirely of valid
UTF-8-encoded runes. -/
def ValidString (s : GoString) : Bool := validLoop s.length s

/-- `utf8.DecodeRuneInString`: the first rune of `s` and its width in bytes;
`(RuneError, 0)` for the empty string and `(RuneError, 1)` for an invalid
encoding. -/
def DecodeRuneInString (s : GoString) : Nat × Nat :=
  match s with
  | [] => (RuneError, 0)
  | s0 :: t0 =>
    let x := first s0
    if x ≥ as then
      (if x = xx then RuneError else s0.val, 1)
    else
      let sz := x &&& 7
      let accept := acceptRanges (x >>> 4)
      if s.length < sz then (RuneError, 1)
      else
        match t0 with
        | [] => (RuneError, 1)
        | b1 :: t1 =>
          if b1.val < accept.lo || accept.hi < b1.val then (RuneError, 1)
          else if sz ≤ 2 then
            (((s0.val &&& mask2) <<< 6) ||| (b1.val &&& maskx), 2)
          else
            match t1 with
            | [] => (RuneError, 1)
            | b2 :: t2 =>
              if b2.val < locb || hicb < b2.val then (RuneError, 1)
              else if sz ≤ 3 then
                (((s0.val &&& mask3) <<< 12) ||| ((b1.val &&& maskx) <<< 6)
                  ||| (b2.val &&& maskx), 3)
              else
                match t2 with
                | [] => (RuneError, 1)
                | b3 :: _ =>
                  if b3.val < locb || hicb < b3.val then (RuneError, 1)
                  else
                    (((s0.val &&& mask4) <<< 18) ||| ((b1.val &&& maskx) <<< 12)
                      ||| ((b2.val &&& maskx) <<< 6) ||| (b3.val &&& maskx), 4)

/-- `utf8.AppendRune(nil, r)`, which is also the conversion `string(r)` of a
rune to a string: the UTF-8 encoding of `r`, the encoding of `RuneError` for
a surrogate or a value above `MaxRune`. -/
def EncodeRune (r : Nat) : GoString :=
  if r ≤ rune1Max then [Fin.ofNat r]
  else if r ≤ rune2Max then
    [Fin.ofNat (0xC0 + r / 64), Fin.ofNat (0x80 + r % 64)]
  else if r > MaxRune ∨ (surrogateMin ≤ r ∧ r ≤ surrogateMax) then
    [0xEF, 0xBF, 0xBD]
  else if r ≤ rune3Max then
    [Fin.ofNat (0xE0 + r / 4096), Fin.ofNat (0x80 + r / 64 % 64), Fin.ofNat (0x80 + r % 64)]
  else
    [Fin.ofNat (0xF0 + r / 262144), Fin.ofNat (0x80 + r / 4096 % 64),
      Fin.ofNat (0x80 + r / 64 % 64), Fin.ofNat (0x80 + r % 64)]

/-- `utf8.ValidRune`: a Unicode scalar value, that is a code point that is
not a surrogate half. -/
def ValidRune (r : Nat) : Prop :=
  r < surrogateMin ∨ (surrogateMax < r ∧ r ≤ MaxRune)

instance (r : Nat) : Decidable (ValidRune r) := by
  unfold ValidRune; infer_instance

/-- The conversion `string(rs)` of a slice of runes: the concatenation of
the encodings. -/
def EncodeRunes : List Nat → GoString
  | [] => []
  | r :: rs => EncodeRune r ++ EncodeRunes rs

/-- The well-formed UTF-8 byte sequences (table 3-7 of the Unicode
standard): `Lead s r rest` holds when `s` starts with a well-formed sequence
of one to four bytes, whose value is `r`, followed by `rest`. -/
inductive Lead : GoString → Nat → GoString → Prop where
  | one (b0 : Byte) (rest : GoString) (h0 : b0.val < 0x80) :
      Lead (b0 :: rest) b0.val rest
  | two (b0 b1 : Byte) (rest : GoString) (h0 : 0xC2 ≤ b0.val ∧ b0.val ≤ 0xDF)
      (h1 : 0x80 ≤ b1.val ∧ b1.val ≤ 0xBF) :
      Lead (b0 :: b1 :: rest) (b0.val % 32 * 64 + b1.val % 64) rest
  | three (b0 b1 b2 : Byte) (rest : GoString) (h0 : 0xE0 ≤ b0.val ∧ b0.val ≤ 0xEF)
      (h1 : 0x80 ≤ b1.val ∧ b1.val ≤ 0xBF)
      (hlo : b0.val = 0xE0 → 0xA0 ≤ b1.val) (hhi : b0.val = 0xED → b1.val ≤ 0x9F)
      (h2 : 0x80 ≤ b2.val ∧ b2.val ≤ 0xBF) :
      Lead (b0 :: b1 :: b2 :: rest) (b0.val % 16 * 4096 + b1.val % 64 * 64 + b2.val % 64) rest
  | four (b0 b1 b2 b3 : Byte) (rest : GoString) (h0 : 0xF0 ≤ b0.val ∧ b0.val ≤ 0xF4)
      (h1 : 0x80 ≤ b1.val ∧ b1.val ≤ 0xBF)
      (hlo : b0.val = 0xF0 → 0x90 ≤ b1.val) (hhi : b0.val = 0xF4 → b1.val ≤ 0x8F)
      (h2 : 0x80 ≤ b2.val ∧ b2.val ≤ 0xBF) (h3 : 0x80 ≤ b3.val ∧ b3.val ≤ 0xBF) :
      Lead (b0 :: b1 :: b2 :: b3 :: rest)
        (b0.val % 8 * 262144 + b1.val % 64 * 4096 + b2.val % 64 * 64 + b3.val % 64) rest

end utf8

/-! ## `strconv` (Go standard library), for a 64-bit `int` -/

namespace strconv

/-- The two errors of a `*strconv.NumError`. -/
inductive NumError where
  /-- `ErrSyntax`: "invalid syntax". -/
  | ErrSyntax
  /-- `ErrRange`: "value out of range". -/
  | ErrRange
deriving DecidableEq, Repr

/-- The decimal digits of `u`, most significant first (the base 10 loop of
`formatBits`); 48 is the byte '0'. The fuel bounds the number of digits. -/
def formatBits : Nat → Nat → GoString
  | 0, _ => []
  | fuel + 1, u =>
    if u < 10 then [Fin.ofNat (48 + u)]
    else formatBits fuel (u / 10) ++ [Fin.ofNat (48 + u % 10)]

/-- `strconv.Itoa`: `FormatInt(int64(i), 10)`, a minus sign (the byte 45)
for a negative number followed by the decimal digits of the magnitude. An
`int64` has at most 19 digits. -/
def Itoa (i : Int) : GoString :=
  if i < 0 then (45 : Byte) :: formatBits 20 i.natAbs else formatBits 20 i.natAbs

/-- The digit loop of the fast path of `Atoi`: `ch -= '0'` on a byte wraps
around, so that `ch > 9` holds for every byte that is not a digit. -/
def atoiFast : Nat → GoString → Option Nat
  | n, [] => some n
  | n, ch :: rest =>
    let ch' := (ch.val + 256 - 48) % 256
    if ch' > 9 then none else atoiFast (n * 10 + ch') rest

/-- The digit loop of `ParseUint(s, 10, 64)`: `cutoff` is `maxUint64/10 + 1`. -/
def parseUintLoop : Nat → GoString → Except NumError Nat
  | n, [] => .ok n
  | n, c :: rest =>
    if 48 ≤ c.val ∧ c.val ≤ 57 then
      let d := c.val - 48
      if n ≥ (2 ^ 64 - 1) / 10 + 1 then .error .ErrRange
      else
        let n1 := n * 10 + d
        if n1 > 2 ^ 64 - 1 then .error .ErrRange
        else parseUintLoop n1 rest
    else .error .ErrSyntax

/-- `strconv.ParseUint(s, 10, 64)`. -/
def ParseUint (s : GoString) : Except NumError Nat :=
  if s = [] then .error .ErrSyntax else parseUintLoop 0 s

/-- `strconv.ParseInt(s, 10, 0)`: an optional sign, '+' (the byte 43) or '-'
(the byte 45), then `ParseUint`, then the check of the range of an `int64`. -/
def ParseInt (s : GoString) : Except NumError Int :=
  match s with
  | [] => .error .ErrSyntax
  | c :: rest =>
    let neg := c = (45 : Byte)
    let s' := if c = (43 : Byte) ∨ c = (45 : Byte) then rest else s
    match ParseUint s' with
    | .error .ErrSyntax => .error .ErrSyntax
    | .error .ErrRange => .error .ErrRange
    | .ok un =>
      if ¬ neg ∧ un ≥ 2 ^ 63 then .error .ErrRange
      else if neg ∧ un > 2 ^ 63 then .error .ErrRange
      else .ok (if neg then - (un : Int) else (un : Int))

/-- `strconv.Atoi`: the fast path for strings of fewer than 19 bytes, and
`ParseInt(s, 10, 0)` for the others. -/
def Atoi (s : GoString) : Except NumError Int :=
  match s with
  | [] => ParseInt s
  | s0 :: rest =>
    if s.length < 19 then
      let s' := if s0 = (45 : Byte) ∨ s0 = (43 : Byte) then rest else s
      if s'.length < 1 then .error .ErrSyntax
      else
        match atoiFast 0 s' with
        | none => .error .ErrSyntax
        | some n => .ok (if s0 = (45 : Byte) then - (n : Int) else (n : Int))
    else ParseInt s

end strconv

/-! ## `token/services/vault/keys/keys.go` -/

/-- U+0000. -/
def minUnicodeRuneValue : Nat := 0
/-- U+10FFFF, the maximum (and unallocated) code point. -/
def MaxUnicodeRuneValue : Nat := utf8.MaxRune
def CompositeKeyNamespace : GoString := [0]
def TokenKeyPrefix : GoString := ascii "ztoken"
def FabTokenKeyPrefix : GoString := ascii "token"
def AuditTokenKeyPrefix : GoString := ascii "audittoken"
def TokenMineKeyPrefix : GoString := ascii "mine"
def TokenSetupKeyPrefix : GoString := ascii "setup"
def IssuedHistoryTokenKeyPrefix : GoString := ascii "issued"
/-- 2 components: txid, index, excluding TokenKeyPrefix. -/
def numComponentsInKey : Nat := 2
def TokenRequestKeyPrefix : GoString := ascii "token_request"
def SerialNumber : GoString := ascii "sn"

/-- The errors of the package, one constructor for each format string, with
the arguments of the format. -/
inductive Error where
  /-- "not a valid utf8 string: [%x]" -/
  | notValidUtf8 (str : GoString)
  /-- "input contain unicode %#U starting at position [%d]. %#U and %#U are
  not allowed in the input attribute of a composite key" -/
  | notAllowed (runeValue : Nat) (index : Nat)
  /-- "invalid composite key - not enough components found in key '%s', [%d][%v]" -/
  | notEnoughComponents (compositeKey : GoString) (n : Nat) (components : List GoString)
  /-- "error splitting input composite key: '%s'" -/
  | errorSplitting (err : Error)
  /-- "not enough components in output ID composite key; expected 3, received '%s'" -/
  | wrongNumberOfComponents (components : List GoString)
  /-- "error parsing output index '%s': '%s'" -/
  | errorParsingIndex (component : GoString) (err : strconv.NumError)
deriving DecidableEq, Repr

/-- The type `token.Id`: the transaction that created a token and the index
of the token among its outputs, a `uint32`. -/
structure Id where
  TxId : GoString
  Index : Nat
deriving DecidableEq, Repr

/-- The conversion `uint32(index)` of an `int`. -/
def uint32 (index : Int) : Nat := (index % 2 ^ 32).toNat

/-- The `for index, runeValue := range str` loop of
`ValidateCompositeKeyAttribute` on the part `str[index:]` that is still to
be read; the fuel bounds the number of iterations. -/
def validateLoop : Nat → Nat → GoString → Option Error
  | 0, _, _ => none
  | fuel + 1, index, s =>
    match s with
    | [] => none
    | _ :: _ =>
      let (runeValue, size) := utf8.DecodeRuneInString s
      if runeValue = minUnicodeRuneValue ∨ runeValue = MaxUnicodeRuneValue then
        some (.notAllowed runeValue index)
      else validateLoop fuel (index + size) (s.drop size)

def ValidateCompositeKeyAttribute (str : GoString) : Option Error :=
  if ¬ utf8.ValidString str then some (.notValidUtf8 str)
  else validateLoop str.length 0 str

/-- The loop of `CreateCompositeKey` over the attributes, `ck` being the key
built so far. -/
def createLoop : GoString → List GoString → Except Error GoString
  | ck, [] => .ok ck
  | ck, att :: rest =>
    match ValidateCompositeKeyAttribute att with
    | some err => .error err
    | none => createLoop (ck ++ att ++ utf8.EncodeRune minUnicodeRuneValue) rest

def CreateCompositeKey (objectType : GoString) (attributes : List GoString) :
    Except Error GoString :=
  match ValidateCompositeKeyAttribute objectType with
  | some err => .error err
  | none =>
    createLoop (CompositeKeyNamespace ++ objectType ++ utf8.EncodeRune minUnicodeRuneValue)
      attributes

/-- The slice expression `s[lo:hi]`. -/
def slice (s : GoString) (lo hi : Nat) : GoString := (s.drop lo).take (hi - lo)

/-- One iteration of the loop of `SplitCompositeKey`, on the state
`(componentIndex, components)`. -/
def splitStep (compositeKey : GoString) (st : Nat × List GoString) (i : Nat) :
    Nat × List GoString :=
  if compositeKey[i]? = some (Fin.ofNat minUnicodeRuneValue) then
    (i + 1, st.2 ++ [slice compositeKey st.1 i])
  else st

/-- The loop `for i := 1; i < len(compositeKey); i++` of `SplitCompositeKey`. -/
def splitLoop (compositeKey : GoString) : Nat × List GoString :=
  (List.range' 1 (compositeKey.length - 1)).foldl (splitStep compositeKey) (1, [])

def SplitCompositeKey (compositeKey : GoString) : Except Error (GoString × List GoString) :=
  let components := (splitLoop compositeKey).2
  if components.length < numComponentsInKey + 1 then
    .error (.notEnoughComponents compositeKey components.length components)
  else .ok (components.getD 0 [], components.drop 1)

def GetTokenIdFromKey (key : GoString) : Except Error Id :=
  match SplitCompositeKey key with
  | .error err => .error (.errorSplitting err)
  | .ok (_, components) =>
    if components.length ≠ numComponentsInKey then
      .error (.wrongNumberOfComponents components)
    else
      let txID := components.getD (numComponentsInKey - 2) []
      match strconv.Atoi (components.getD (numComponentsInKey - 1) []) with
      | .error err => .error (.errorParsingIndex (components.getD (numComponentsInKey - 1) []) err)
      | .ok index => .ok { TxId := txID, Index := uint32 index }

def CreateTokenKey (txID : GoString) (index : Int) : Except Error GoString :=
  CreateCompositeKey TokenKeyPrefix [txID, strconv.Itoa index]

def CreateSNKey (sn : GoString) : Except Error GoString :=
  CreateCompositeKey TokenKeyPrefix [SerialNumber, sn]

def CreateFabtokenKey (txID : GoString) (index : Int) : Except Error GoString :=
  CreateCompositeKey FabTokenKeyPrefix [txID, strconv.Itoa index]

def CreateAuditTokenKey (txID : GoString) (index : Int) : Except Error GoString :=
  CreateCompositeKey AuditTokenKeyPrefix [txID, strconv.Itoa index]

def CreateTokenMineKey (txID : GoString) (index : Int) : Except Error GoString :=
  CreateCompositeKey TokenKeyPrefix [TokenMineKeyPrefix, txID, strconv.Itoa index]

def CreateSetupKey : Except Error GoString :=
  CreateCompositeKey TokenKeyPrefix [TokenSetupKeyPrefix]

def CreateSetupBundleKey : Except Error GoString :=
  CreateCompositeKey TokenKeyPrefix [TokenSetupKeyPrefix, ascii "bundle"]

def CreateTokenRequestKey (txID : GoString) : Except Error GoString :=
  CreateCompositeKey TokenKeyPrefix [TokenRequestKeyPrefix, txID]

def CreateIssuedHistoryTokenKey (txID : GoString) (index : Int) : Except Error GoString :=
  CreateCompositeKey IssuedHistoryTokenKeyPrefix [txID, strconv.Itoa index]

/-! ## Notions used to state the properties -/

/-- A rune that `ValidateCompositeKeyAttribute` lets through: a Unicode scalar
value other than U+0000 and U+10FFFF. -/
def AllowedRune (r : Nat) : Prop :=
  utf8.ValidRune r ∧ r ≠ minUnicodeRuneValue ∧ r ≠ MaxUnicodeRuneValue

instance (r : Nat) : Decidable (AllowedRune r) := by
  unfold AllowedRune; infer_instance

/-- A valid UTF-8 byte sequence: the encoding of a list of Unicode scalar
values, its code points. -/
def ValidUTF8 (s : GoString) : Prop :=
  ∃ rs : List Nat, (∀ r ∈ rs, utf8.ValidRune r) ∧ s = utf8.EncodeRunes rs

/-- A string that is valid UTF-8 and contains neither U+0000 nor U+10FFFF:
the encoding of a list of allowed runes. -/
def AllowedString (s : GoString) : Prop :=
  ∃ rs : List Nat, (∀ r ∈ rs, AllowedRune r) ∧ s = utf8.EncodeRunes rs

/-- The NUL-terminated components of a byte string, in order; `cur` is the
part already read of the component in progress. Bytes after the last NUL
belong to no component. -/
def components (cur : GoString) : GoString → List GoString
  | [] => []
  | b :: rest => if b = 0 then cur :: components [] rest else components (cur ++ [b]) rest

/-- Each string of the list followed by one NUL byte, concatenated. -/
def joinNul : List GoString → GoString
  | [] => []
  | c :: cs => c ++ (0 : Byte) :: joinNul cs

/-- The decimal representation of an integer: a minus sign for a negative
number, then the digits of the magnitude, most significant first ("0" for
zero). -/
def decimal (i : Int) : GoString :=
  let digits : GoString :=
    if i.natAbs = 0 then [48]
    else ((Nat.digits 10 i.natAbs).reverse.map (fun d => Fin.ofNat (48 + d)))
  if i < 0 then (45 : Byte) :: digits else digits

end Keys

/-! ## The zero-knowledge proof engine (`token/core/zkatdlog/crypto`)

The sources of `crypto.Setup`, of the token commitment, of the range proof and
of the `issue` and `transfer` provers and verifiers are not part of the
material; only their tests are. The definitions of this section are modelled
from the specification (sections 3, 4 and 7). The group of the curve is any
commutative group `Grp`, written additively, on which the scalars `F` act;
the Fiat-Shamir hash is any function `hash`, and the random scalars that a
prover samples are an explicit argument. -/

namespace Crypto

variable {F : Type} [CommRing F] [DecidableEq F]
variable {Grp : Type} [AddCommGroup Grp] [Module F Grp] [DecidableEq Grp]

/-- Modelled from the spec: the failure classes of an `InvalidProofError`
(section 7 of the specification), the source of the verifiers is missing. -/
inductive InvalidProofReason where
  /-- A generic algebraic check failed. -/
  | algebraicCheck
  /-- The conservation-of-value identity failed. -/
  | invalidTransfer
  /-- A range sub-proof failed. -/
  | rangeProof
deriving DecidableEq, Repr

/-- Modelled from the spec: the error taxonomy of section 7, the source of
the `crypto` package is missing. -/
inductive Error where
  | ConfigurationError
  | MalformedInputError
  | RangeProofError (msg : String)
  | InvalidProofError (reason : InvalidProofReason)
deriving DecidableEq, Repr

/-- Modelled from the spec: what the algebra layer provides to `Setup`, the
generators of the commitments; `crypto.Setup` is missing. The argument `nil`
of the tests stands for the default curve. -/
structure CurveParams (Grp : Type) where
  generatorG : Grp
  generatorH : Grp
  typeGenerators : String → Grp

/-- Modelled from the spec: `PublicParams` (section 3), `crypto.PublicParams`
is missing. The entry `k` of `digitTable` is `G^k`, for each digit value
`k < rangeBase`. The bound `maxBatchSize` is left out: `Setup` has no
argument for it and no operation of the specification reads it. -/
structure PublicParams (Grp : Type) where
  generatorG : Grp
  generatorH : Grp
  typeGenerators : String → Grp
  rangeBase : Nat
  rangeDigits : Nat
  digitTable : List Grp

/-- Modelled from the spec: `Setup(rangeBase, rangeDigits, curveParams)`
(section 4.1), `crypto.Setup` is missing. It fails with `ConfigurationError`
if `rangeBase < 2` or `rangeDigits < 1`. -/
def Setup (rangeBase rangeDigits : Nat) (curveParams : CurveParams Grp) :
    Except Error (PublicParams Grp) :=
  if rangeBase < 2 ∨ rangeDigits < 1 then .error .ConfigurationError
  else .ok
    { generatorG := curveParams.generatorG
      generatorH := curveParams.generatorH
      typeGenerators := curveParams.typeGenerators
      rangeBase := rangeBase
      rangeDigits := rangeDigits
      digitTable := (List.range rangeBase).map (fun k => k • curveParams.generatorG) }

/-- Modelled from the spec: `TokenDataWitness` (section 3),
`token.TokenDataWitness` is missing. `Value` is the non-negative integer that
the scalar stands for. -/
structure TokenDataWitness (F : Type) where
  Type_ : String
  Value : Nat
  BlindingFactor : F

/-- Modelled from the spec: `Commit(value, blindingFactor, tokenType, pp)`
(section 4.2), `G^value · H^blindingFactor · TypeGenerator(tokenType)`; the
source of the token commitment is missing. -/
def Commit (value : Nat) (blindingFactor : F) (tokenType : String) (pp : PublicParams Grp) :
    Grp :=
  (value : F) • pp.generatorG + blindingFactor • pp.generatorH + pp.typeGenerators tokenType

/-- Modelled from the spec: the commitment to a witness. -/
def TokenDataWitness.commit (w : TokenDataWitness F) (pp : PublicParams Grp) : Grp :=
  Commit w.Value w.BlindingFactor w.Type_ pp

/-- Modelled from the spec: the type that a proof instance declares, the one
of its first witness ("all witnesses share one declared type per proof
instance", section 3). -/
def declaredType (ws : List (TokenDataWitness F)) : String :=
  match ws with
  | [] => ""
  | w :: _ => w.Type_

/-! ### The range proof (section 4.3) -/

/-- Modelled from the spec: the scalars that the range prover samples for one
commitment: the blinding of each digit but the first, and for the membership
proof of digit `i` the nonce of the real branch and the challenge and
response of each simulated branch `j`. -/
structure RangeRandomness (F : Type) where
  digitBlinding : Nat → F
  nonce : Nat → F
  simulatedChallenge : Nat → Nat → F
  simulatedResponse : Nat → Nat → F

/-- Modelled from the spec: the membership proof of one digit, its commitment
`C_i` and for each table value `j < rangeBase` the challenge share and the
response of branch `j`. -/
structure DigitProof (F Grp : Type) where
  commitment : Grp
  branches : List (F × F)

/-- Modelled from the spec: a range proof, one membership proof for each
digit. -/
structure RangeProof (F Grp : Type) where
  digits : List (DigitProof F Grp)

namespace Range

/-- Modelled from the spec: step 1 of section 4.3, the digit `v_i` of `v` in
base `rangeBase`. -/
def digit (pp : PublicParams Grp) (v i : Nat) : Nat :=
  v / pp.rangeBase ^ i % pp.rangeBase

/-- Modelled from the spec: step 2 of section 4.3, the blinding `r_i` of
digit `i`: sampled for `i ≥ 1`, and chosen for `i = 0` such that
`Σ r_i · rangeBase^i` is the blinding `r` of the commitment. -/
def blinding (pp : PublicParams Grp) (bf : F) (rnd : RangeRandomness F) (i : Nat) : F :=
  if i = 0 then
    bf - ((List.range (pp.rangeDigits - 1)).map
      (fun k => (pp.rangeBase : F) ^ (k + 1) * rnd.digitBlinding (k + 1))).sum
  else rnd.digitBlinding i

/-- Modelled from the spec: step 2 of section 4.3, `C_i = G^{v_i} · H^{r_i}`. -/
def digitCommitment (pp : PublicParams Grp) (v : Nat) (bf : F) (rnd : RangeRandomness F)
    (i : Nat) : Grp :=
  (digit pp v i : F) • pp.generatorG + blinding pp bf rnd i • pp.generatorH

/-- Modelled from the spec: the entry `j` of the digit table. -/
def tableEntry (pp : PublicParams Grp) (j : Nat) : Grp := pp.digitTable.getD j 0

/-- Modelled from the spec: the first message of branch `j` of the membership
proof of `C_i`, recomputed from the challenge share and the response of the
branch. The branch states that `C_i` divided by the table entry `j` is a
power of `H`. -/
def branchMessage (pp : PublicParams Grp) (Ci : Grp) (j : Nat) (cz : F × F) : Grp :=
  cz.2 • pp.generatorH - cz.1 • (Ci - tableEntry pp j)

/-- Modelled from the spec: step 3 of section 4.3, the first message that the
prover computes for branch `j` of digit `i`: the real branch commits to a
nonce, the others are simulated. -/
def proverMessage (pp : PublicParams Grp) (v : Nat) (bf : F) (rnd : RangeRandomness F)
    (i j : Nat) : Grp :=
  if j = digit pp v i then rnd.nonce i • pp.generatorH
  else branchMessage pp (digitCommitment pp v bf rnd i) j
    (rnd.simulatedChallenge i j, rnd.simulatedResponse i j)

/-- Modelled from the spec: the transcript that is hashed into the challenge,
the commitment, the commitments to its digits and the first messages of all
the branches. -/
def transcript (C : Grp) (commitments : List Grp) (messages : List (List Grp)) : List Grp :=
  C :: commitments ++ messages.flatten

/-- Modelled from the spec: the Fiat-Shamir challenge of the prover. -/
def proverChallenge (hash : List Grp → F) (pp : PublicParams Grp) (C : Grp) (v : Nat) (bf : F)
    (rnd : RangeRandomness F) : F :=
  hash (transcript C ((List.range pp.rangeDigits).map (digitCommitment pp v bf rnd))
    ((List.range pp.rangeDigits).map
      (fun i => (List.range pp.rangeBase).map (proverMessage pp v bf rnd i))))

/-- Modelled from the spec: the challenge share and the response of branch
`j` of digit `i`. The challenge of the real branch is the complement of the
simulated ones to the Fiat-Shamir challenge (section 9). -/
def proverBranch (hash : List Grp → F) (pp : PublicParams Grp) (C : Grp) (v : Nat) (bf : F)
    (rnd : RangeRandomness F) (i j : Nat) : F × F :=
  if j = digit pp v i then
    let cReal := proverChallenge hash pp C v bf rnd -
      ((List.range pp.rangeBase).map
        (fun k => if k = digit pp v i then 0 else rnd.simulatedChallenge i k)).sum
    (cReal, rnd.nonce i + cReal * blinding pp bf rnd i)
  else (rnd.simulatedChallenge i j, rnd.simulatedResponse i j)

/-- Modelled from the spec: the proof that the range prover assembles, for
each digit its commitment and the challenge shares and responses of its
branches. -/
def assemble (hash : List Grp → F) (pp : PublicParams Grp) (C : Grp) (v : Nat) (bf : F)
    (rnd : RangeRandomness F) : RangeProof F Grp :=
  { digits := (List.range pp.rangeDigits).map (fun i =>
      { commitment := digitCommitment pp v bf rnd i
        branches := (List.range pp.rangeBase).map (proverBranch hash pp C v bf rnd i) }) }

/-- Modelled from the spec: step 1 of section 4.3, the value
`Σ v_i · rangeBase^i` that the `rangeDigits` digits of `v` stand for. -/
def digitsValue (pp : PublicParams Grp) (v : Nat) : Nat :=
  ((List.range pp.rangeDigits).map (fun i => digit pp v i * pp.rangeBase ^ i)).sum

/-- Modelled from the spec: the range prover (section 4.3), its source is
missing. It decomposes `v` into `rangeDigits` digits and raises
`RangeProofError("value of token outside authorized range")` when the digits
do not stand for `v`, the decomposition being impossible with the configured
number of digits. -/
def Prove (hash : List Grp → F) (pp : PublicParams Grp) (C : Grp) (v : Nat) (bf : F)
    (rnd : RangeRandomness F) : Except Error (RangeProof F Grp) :=
  if digitsValue pp v = v then .ok (assemble hash pp C v bf rnd)
  else .error (.RangeProofError "value of token outside authorized range")

/-- Modelled from the spec: the range verifier (step 4 of section 4.3), its
source is missing. It recomputes the challenge, checks the membership proof
of each digit and the reconstruction of the commitment `C`, up to its type
factor `T`, from the commitments to the digits. -/
def Verify (hash : List Grp → F) (pp : PublicParams Grp) (C T : Grp) (proof : RangeProof F Grp) :
    Bool :=
  let c := hash (transcript C (proof.digits.map (fun dp => dp.commitment))
    (proof.digits.map (fun dp =>
      List.zipWith (branchMessage pp dp.commitment) (List.range dp.branches.length) dp.branches)))
  decide (proof.digits.length = pp.rangeDigits) &&
  proof.digits.all (fun dp =>
    decide (dp.branches.length = pp.rangeBase) &&
    decide ((dp.branches.map Prod.fst).sum = c)) &&
  decide (C - T = (List.zipWith (fun i dp => ((pp.rangeBase : F) ^ i) • dp.commitment)
    (List.range proof.digits.length) proof.digits).sum)

end Range

instance : Inhabited (TokenDataWitness F) := ⟨{ Type_ := "", Value := 0, BlindingFactor := 0 }⟩

/-- Modelled from the spec: the range proofs of a list of tokens, token `k`
with the commitment `cs[k]` and the randomness `rnd k`; the first failure is
returned. -/
def rangeProofs (hash : List Grp → F) (pp : PublicParams Grp) (ws : List (TokenDataWitness F))
    (cs : List Grp) (rnd : Nat → RangeRandomness F) : Except Error (List (RangeProof F Grp)) :=
  ((List.range ws.length).map (fun k =>
    Range.Prove hash pp (cs.getD k 0) (ws.getD k default).Value
      (ws.getD k default).BlindingFactor (rnd k))).mapM id

/-- Modelled from the spec: the check of one range proof for each
commitment. -/
def verifyRangeProofs (hash : List Grp → F) (pp : PublicParams Grp) (cs : List Grp) (T : Grp)
    (proofs : List (RangeProof F Grp)) : Bool :=
  decide (proofs.length = cs.length) &&
  (List.zipWith (fun C p => Range.Verify hash pp C T p) cs proofs).all id

/-- Modelled from the spec: the scalars that a prover samples for the proof
of knowledge of the opening of commitment `k`. -/
structure OpeningRandomness (F : Type) where
  value : Nat → F
  blinding : Nat → F

/-- Modelled from the spec: the first message of the Schnorr-style proof of
knowledge of `(value, blindingFactor)` for token `k`, a commitment to the
sampled randomness. -/
def openingMessage (pp : PublicParams Grp) (rnd : OpeningRandomness F) (k : Nat) : Grp :=
  rnd.value k • pp.generatorG + rnd.blinding k • pp.generatorH

/-- Modelled from the spec: the linear responses of the proof of knowledge
of the opening of the commitment to `w`, token `k`, for the challenge `c`. -/
def openingResponse (rnd : OpeningRandomness F) (c : F) (k : Nat) (w : TokenDataWitness F) :
    F × F :=
  (rnd.value k + c * (w.Value : F), rnd.blinding k + c * w.BlindingFactor)

/-- Modelled from the spec: the response equations of the openings, for each
commitment `C` with first message `A` and responses `(zv, zr)`:
`G^zv · H^zr = A · (C / T)^c`, where `T` is the generator of the declared
type. -/
def verifyOpenings (pp : PublicParams Grp) (T : Grp) (c : F) (cs messages : List Grp)
    (responses : List (F × F)) : Bool :=
  decide (messages.length = cs.length) && decide (responses.length = cs.length) &&
  (List.zipWith (fun (CA : Grp × Grp) (z : F × F) =>
      decide (z.1 • pp.generatorG + z.2 • pp.generatorH = CA.2 + c • (CA.1 - T)))
    (cs.zip messages) responses).all id

/-! ### The issue protocol (section 4.4) -/

namespace Issue

/-- Modelled from the spec: the proof of an issue, the source of the `issue`
package is missing: the declared type, the first-round messages, the
Fiat-Shamir challenge, the responses, and the range proofs when they are
attached. -/
structure Proof (F Grp : Type) where
  declaredType : String
  firstMessages : List Grp
  challenge : F
  responses : List (F × F)
  rangeProofs : List (RangeProof F Grp)

/-- Modelled from the spec: the scalars that the issue prover samples. -/
structure Randomness (F : Type) where
  opening : OpeningRandomness F
  range : Nat → RangeRandomness F

/-- Modelled from the spec: the issue prover, `issue.Prover` is missing. -/
structure Prover (F Grp : Type) where
  witnesses : List (TokenDataWitness F)
  commitments : List Grp
  attachRangeProof : Bool
  pp : PublicParams Grp

/-- Modelled from the spec: `Issue.NewProver(witnesses, commitments,
attachRangeProof, pp)` (section 6). -/
def NewProver (witnesses : List (TokenDataWitness F)) (commitments : List Grp)
    (attachRangeProof : Bool) (pp : PublicParams Grp) : Prover F Grp :=
  { witnesses := witnesses, commitments := commitments, attachRangeProof := attachRangeProof,
    pp := pp }

/-- Modelled from the spec: `Prover.Prove()` of the issue protocol (section
4.4), `issue.Prover.Prove` is missing. It returns an error only if the counts
of witnesses and commitments differ or if a value violates the range
precondition. -/
def Prover.Prove (hash : List Grp → F) (p : Prover F Grp) (rnd : Randomness F) :
    Except Error (Proof F Grp) :=
  if p.witnesses.length ≠ p.commitments.length then .error .MalformedInputError
  else
    match (if p.attachRangeProof then
        rangeProofs hash p.pp p.witnesses p.commitments rnd.range else .ok []) with
    | .error e => .error e
    | .ok rps =>
      let messages := (List.range p.witnesses.length).map (openingMessage p.pp rnd.opening)
      let c := hash (p.commitments ++ messages)
      .ok
        { declaredType := declaredType p.witnesses
          firstMessages := messages
          challenge := c
          responses := (List.range p.witnesses.length).map
            (fun k => openingResponse rnd.opening c k (p.witnesses.getD k default))
          rangeProofs := rps }

/-- Modelled from the spec: the issue verifier, `issue.Verifier` is missing. -/
structure Verifier (Grp : Type) where
  commitments : List Grp
  expectRangeProof : Bool
  pp : PublicParams Grp

/-- Modelled from the spec: `Issue.NewVerifier(commitments, expectRangeProof,
pp)` (section 6). -/
def NewVerifier (commitments : List Grp) (expectRangeProof : Bool) (pp : PublicParams Grp) :
    Verifier Grp :=
  { commitments := commitments, expectRangeProof := expectRangeProof, pp := pp }

/-- Modelled from the spec: `Verifier.Verify(proof)` of the issue protocol
(section 4.4), `issue.Verifier.Verify` is missing. It recomputes the
challenge from the commitments and the first-round messages, checks the
response equation of each token and, when range proofs are expected, each
range proof. `none` is success. -/
def Verifier.Verify (hash : List Grp → F) (v : Verifier Grp) (proof : Proof F Grp) :
    Option Error :=
  let T := v.pp.typeGenerators proof.declaredType
  if proof.challenge ≠ hash (v.commitments ++ proof.firstMessages) then
    some (.InvalidProofError .algebraicCheck)
  else if ¬ verifyOpenings v.pp T proof.challenge v.commitments proof.firstMessages
      proof.responses then
    some (.InvalidProofError .algebraicCheck)
  else if v.expectRangeProof ∧ ¬ verifyRangeProofs hash v.pp v.commitments T proof.rangeProofs then
    some (.InvalidProofError .rangeProof)
  else none

end Issue

/-! ### The transfer protocol (section 4.5) -/

namespace Transfer

/-- Modelled from the spec: the proof of a transfer, the source of the
`transfer` package is missing: the declared type, the first-round messages of
the openings of the outputs and of the conservation of value, the
Fiat-Shamir challenge, the responses, and one range proof for each output. -/
structure Proof (F Grp : Type) where
  declaredType : String
  outputMessages : List Grp
  conservationMessage : Grp
  challenge : F
  outputResponses : List (F × F)
  conservationResponse : F
  rangeProofs : List (RangeProof F Grp)

/-- Modelled from the spec: the scalars that the transfer prover samples. -/
structure Randomness (F : Type) where
  opening : OpeningRandomness F
  conservation : F
  range : Nat → RangeRandomness F

/-- Modelled from the spec: the transfer prover, `transfer.Prover` is
missing. -/
structure Prover (F Grp : Type) where
  inputWitnesses : List (TokenDataWitness F)
  outputWitnesses : List (TokenDataWitness F)
  inputCommitments : List Grp
  outputCommitments : List Grp
  pp : PublicParams Grp

/-- Modelled from the spec: `Transfer.NewProver(inputWitnesses,
outputWitnesses, inputCommitments, outputCommitments, pp)` (section 6). -/
def NewProver (inputWitnesses outputWitnesses : List (TokenDataWitness F))
    (inputCommitments outputCommitments : List Grp) (pp : PublicParams Grp) : Prover F Grp :=
  { inputWitnesses := inputWitnesses, outputWitnesses := outputWitnesses,
    inputCommitments := inputCommitments, outputCommitments := outputCommitments, pp := pp }

/-- Modelled from the spec: the conservation identity (section 4.5, b and
c): the product of the input commitments divided by the product of the output
commitments, formed with the type generator `T`, so that the type terms
cancel. It is a power of `H` when the values are conserved. -/
def conservationIdentity (T : Grp) (inputCommitments outputCommitments : List Grp) : Grp :=
  (inputCommitments.map (fun C => C - T)).sum - (outputCommitments.map (fun C => C - T)).sum

/-- Modelled from the spec: the first-round messages of the openings of the
outputs, one for each output witness. -/
def Prover.outputMessages (p : Prover F Grp) (rnd : Randomness F) : List Grp :=
  (List.range p.outputWitnesses.length).map (openingMessage p.pp rnd.opening)

/-- Modelled from the spec: the Fiat-Shamir challenge of the transfer prover,
the hash of the public commitments and of the first-round messages. -/
def Prover.challenge (hash : List Grp → F) (p : Prover F Grp) (rnd : Randomness F) : F :=
  hash (p.inputCommitments ++ p.outputCommitments ++ p.outputMessages rnd
    ++ [rnd.conservation • p.pp.generatorH])

/-- Modelled from the spec: `Prover.Prove()` of the transfer protocol
(section 4.5), `transfer.Prover.Prove` is missing. It fails with the range
error of an output, and otherwise returns a proof, also when the sums of the
values differ. The conservation of value is proved as the knowledge of the
difference `x` of the sums of the blinding factors. -/
def Prover.Prove (hash : List Grp → F) (p : Prover F Grp) (rnd : Randomness F) :
    Except Error (Proof F Grp) :=
  match rangeProofs hash p.pp p.outputWitnesses p.outputCommitments rnd.range with
  | .error e => .error e
  | .ok rps =>
    let c := p.challenge hash rnd
    let x := (p.inputWitnesses.map (fun w => w.BlindingFactor)).sum -
      (p.outputWitnesses.map (fun w => w.BlindingFactor)).sum
    .ok
      { declaredType := declaredType (p.inputWitnesses ++ p.outputWitnesses)
        outputMessages := p.outputMessages rnd
        conservationMessage := rnd.conservation • p.pp.generatorH
        challenge := c
        outputResponses := (List.range p.outputWitnesses.length).map
          (fun k => openingResponse rnd.opening c k (p.outputWitnesses.getD k default))
        conservationResponse := rnd.conservation + c * x
        rangeProofs := rps }

/-- Modelled from the spec: the transfer verifier, `transfer.Verifier` is
missing. -/
structure Verifier (Grp : Type) where
  inputCommitments : List Grp
  outputCommitments : List Grp
  pp : PublicParams Grp

/-- Modelled from the spec: `Transfer.NewVerifier(inputCommitments,
outputCommitments, pp)` (section 6). -/
def NewVerifier (inputCommitments outputCommitments : List Grp) (pp : PublicParams Grp) :
    Verifier Grp :=
  { inputCommitments := inputCommitments, outputCommitments := outputCommitments, pp := pp }

/-- Modelled from the spec: `Verifier.Verify(proof)` of the transfer protocol
(section 4.5), `transfer.Verifier.Verify` is missing. It recomputes the
challenge and checks the openings of the outputs, the conservation identity
and the range proofs; the failure of the conservation identity is the
"invalid zero-knowledge transfer" error. `none` is success. -/
def Verifier.Verify (hash : List Grp → F) (v : Verifier Grp) (proof : Proof F Grp) :
    Option Error :=
  let T := v.pp.typeGenerators proof.declaredType
  if proof.challenge ≠ hash (v.inputCommitments ++ v.outputCommitments ++ proof.outputMessages
      ++ [proof.conservationMessage]) then
    some (.InvalidProofError .algebraicCheck)
  else if ¬ verifyOpenings v.pp T proof.challenge v.outputCommitments proof.outputMessages
      proof.outputResponses then
    some (.InvalidProofError .algebraicCheck)
  else if proof.conservationResponse • v.pp.generatorH ≠ proof.conservationMessage +
      proof.challenge • conservationIdentity T v.inputCommitments v.outputCommitments then
    some (.InvalidProofError .invalidTransfer)
  else if ¬ verifyRangeProofs hash v.pp v.outputCommitments T proof.rangeProofs then
    some (.InvalidProofError .rangeProof)
  else none

end Transfer

/-! ### A concrete instance, on which the properties are evaluated

The scalars are the integers and the group is `ℤ × ℤ × ℤ`, in which the
generators `G`, `H` and the generators of the types are independent. The
values are those of `transfer_test.go` and `issue_test.go`. -/

namespace Test

/-- A curve for the concrete instance. -/
def curve : CurveParams (ℤ × ℤ × ℤ) :=
  { generatorG := (1, 0, 0)
    generatorH := (0, 1, 0)
    typeGenerators := fun t => (0, 0, (t.length : ℤ) + 1) }

/-- A hash for the concrete instance. -/
def hash (l : List (ℤ × ℤ × ℤ)) : ℤ :=
  l.foldl (fun a x => 31 * a + x.1 + 7 * x.2.1 + 11 * x.2.2) 17

/-- The scalars sampled by the range prover in the concrete instance. -/
def rangeRandomness (k : Nat) : RangeRandomness ℤ :=
  { digitBlinding := fun i => 5 + i + k
    nonce := fun i => 11 + 2 * i + k
    simulatedChallenge := fun i j => 3 * i + j + 1
    simulatedResponse := fun i j => i + 2 * j + 1 }

/-- The scalars sampled by the transfer prover in the concrete instance. -/
def transferRandomness : Transfer.Randomness ℤ :=
  { opening := { value := fun k => 100 + k, blinding := fun k => 200 + k }
    conservation := 77
    range := rangeRandomness }

/-- The scalars sampled by the issue prover in the concrete instance. -/
def issueRandomness : Issue.Randomness ℤ :=
  { opening := { value := fun k => 100 + k, blinding := fun k => 200 + k }
    range := rangeRandomness }

/-- The witnesses of `prepareInputsForZKTransfer`, with the values 90 and 60. -/
def inputs : List (TokenDataWitness ℤ) :=
  [{ Type_ := "ABC", Value := 90, BlindingFactor := 12 },
   { Type_ := "ABC", Value := 60, BlindingFactor := 34 }]

/-- The witnesses of `prepareInputsForZKTransfer`, with the values 50 and 100. -/
def outputs : List (TokenDataWitness ℤ) :=
  [{ Type_ := "ABC", Value := 50, BlindingFactor := 56 },
   { Type_ := "ABC", Value := 100, BlindingFactor := 78 }]

/-- The witnesses of `prepareInvalidInputsForZKTransfer`, with the values 110
and 45. -/
def unbalancedOutputs : List (TokenDataWitness ℤ) :=
  [{ Type_ := "ABC", Value := 110, BlindingFactor := 56 },
   { Type_ := "ABC", Value := 45, BlindingFactor := 78 }]

/-- The witnesses of `prepareInputsForZKIssue`, with the values 120 and 190. -/
def issued : List (TokenDataWitness ℤ) :=
  [{ Type_ := "ABC", Value := 120, BlindingFactor := 21 },
   { Type_ := "ABC", Value := 190, BlindingFactor := 43 }]

end Test

end Crypto

/-! ## Theorems -/

namespace Keys

namespace utf8

/-! ### Masks and shifts as arithmetic -/

theorem or_eq_add_of_dvd (i a b : Nat) (hb : b < 2 ^ i) (ha : 2 ^ i ∣ a) :
    a ||| b = a + b := by
  obtain ⟨k, rfl⟩ := ha
  exact (Nat.mul_add_lt_is_or hb k).symm

theorem and_maskx (x : Nat) : x &&& maskx = x % 64 :=
  Nat.and_pow_two_sub_one_eq_mod x 6

theorem and_mask2 (x : Nat) : x &&& mask2 = x % 32 :=
  Nat.and_pow_two_sub_one_eq_mod x 5

theorem and_mask3 (x : Nat) : x &&& mask3 = x % 16 :=
  Nat.and_pow_two_sub_one_eq_mod x 4

theorem and_mask4 (x : Nat) : x &&& mask4 = x % 8 :=
  Nat.and_pow_two_sub_one_eq_mod x 3

theorem decode2_eq (a b : Nat) :
    ((a &&& mask2) <<< 6) ||| (b &&& maskx) = a % 32 * 64 + b % 64 := by
  rw [and_maskx, and_mask2, Nat.shiftLeft_eq]
  exact or_eq_add_of_dvd 6 _ _ (by norm_num; omega) (by norm_num)

theorem decode3_eq (a b c : Nat) :
    ((a &&& mask3) <<< 12) ||| ((b &&& maskx) <<< 6) ||| (c &&& maskx)
      = a % 16 * 4096 + b % 64 * 64 + c % 64 := by
  rw [and_maskx, and_maskx, and_mask3, Nat.shiftLeft_eq, Nat.shiftLeft_eq]
  rw [or_eq_add_of_dvd 12 (a % 16 * 2 ^ 12) (b % 64 * 2 ^ 6) (by norm_num; omega) (by norm_num)]
  exact or_eq_add_of_dvd 6 _ _ (by norm_num; omega) (by norm_num; omega)

theorem decode4_eq (a b c d : Nat) :
    ((a &&& mask4) <<< 18) ||| ((b &&& maskx) <<< 12) ||| ((c &&& maskx) <<< 6)
        ||| (d &&& maskx)
      = a % 8 * 262144 + b % 64 * 4096 + c % 64 * 64 + d % 64 := by
  rw [and_maskx, and_maskx, and_maskx, and_mask4, Nat.shiftLeft_eq, Nat.shiftLeft_eq,
    Nat.shiftLeft_eq]
  rw [or_eq_add_of_dvd 18 (a % 8 * 2 ^ 18) (b % 64 * 2 ^ 12) (by norm_num; omega) (by norm_num)]
  rw [or_eq_add_of_dvd 12 (a % 8 * 2 ^ 18 + b % 64 * 2 ^ 12) (c % 64 * 2 ^ 6)
    (by norm_num; omega) (by norm_num; omega)]
  exact or_eq_add_of_dvd 6 _ _ (by norm_num; omega) (by norm_num; omega)

/-! ### The table `first` -/

theorem first_as (b : Byte) (h : b.val < 0x80) : first b = as := by
  unfold first; rw [if_pos h]

theorem first_s1 (b : Byte) (h : 0xC2 ≤ b.val ∧ b.val ≤ 0xDF) : first b = s1 := by
  unfold first
  repeat (first | rw [if_pos (by omega)] | rw [if_neg (by omega)])

theorem first_s2 (b : Byte) (h : b.val = 0xE0) : first b = s2 := by
  unfold first
  repeat (first | rw [if_pos (by omega)] | rw [if_neg (by omega)])

theorem first_s3 (b : Byte)
    (h : (0xE1 ≤ b.val ∧ b.val ≤ 0xEC) ∨ (0xEE ≤ b.val ∧ b.val ≤ 0xEF)) : first b = s3 := by
  unfold first
  rcases h with h | h <;>
  repeat (first | rw [if_pos (by omega)] | rw [if_neg (by omega)])

theorem first_s4 (b : Byte) (h : b.val = 0xED) : first b = s4 := by
  unfold first
  repeat (first | rw [if_pos (by omega)] | rw [if_neg (by omega)])

theorem first_s5 (b : Byte) (h : b.val = 0xF0) : first b = s5 := by
  unfold first
  repeat (first | rw [if_pos (by omega)] | rw [if_neg (by omega)])

theorem first_s6 (b : Byte) (h : 0xF1 ≤ b.val ∧ b.val ≤ 0xF3) : first b = s6 := by
  unfold first
  repeat (first | rw [if_pos (by omega)] | rw [if_neg (by omega)])

theorem first_s7 (b : Byte) (h : b.val = 0xF4) : first b = s7 := by
  unfold first
  repeat (first | rw [if_pos (by omega)] | rw [if_neg (by omega)])

theorem first_xx (b : Byte) (h : (0x80 ≤ b.val ∧ b.val ≤ 0xC1) ∨ 0xF5 ≤ b.val) :
    first b = xx := by
  unfold first
  rcases h with h | h <;>
  repeat (first | rw [if_pos (by omega)] | rw [if_neg (by omega)])

/-- The entries of the table as the code reads them: below `as`, the size in
the low bits, the index of the accept range in the high bits. -/
theorem table_entries :
    (¬ as ≤ s1 ∧ ¬ as ≤ s2 ∧ ¬ as ≤ s3 ∧ ¬ as ≤ s4 ∧ ¬ as ≤ s5 ∧ ¬ as ≤ s6 ∧ ¬ as ≤ s7) ∧
    (s1 ≠ xx ∧ s2 ≠ xx ∧ s3 ≠ xx ∧ s4 ≠ xx ∧ s5 ≠ xx ∧ s6 ≠ xx ∧ s7 ≠ xx ∧ as ≠ xx) ∧
    (s1 &&& 7 = 2 ∧ s2 &&& 7 = 3 ∧ s3 &&& 7 = 3 ∧ s4 &&& 7 = 3 ∧ s5 &&& 7 = 4 ∧
      s6 &&& 7 = 4 ∧ s7 &&& 7 = 4) ∧
    (acceptRanges (s1 >>> 4) = ⟨0x80, 0xBF⟩ ∧ acceptRanges (s2 >>> 4) = ⟨0xA0, 0xBF⟩ ∧
      acceptRanges (s3 >>> 4) = ⟨0x80, 0xBF⟩ ∧ acceptRanges (s4 >>> 4) = ⟨0x80, 0x9F⟩ ∧
      acceptRanges (s5 >>> 4) = ⟨0x90, 0xBF⟩ ∧ acceptRanges (s6 >>> 4) = ⟨0x80, 0xBF⟩ ∧
      acceptRanges (s7 >>> 4) = ⟨0x80, 0x8F⟩) := by
  decide


theorem Lead.decode {s : GoString} {r : Nat} {rest : GoString} (h : Lead s r rest) :
    DecodeRuneInString s = (r, s.length - rest.length) := by
  obtain ⟨⟨a1, a2, a3, a4, a5, a6, a7⟩, -, ⟨z1, z2, z3, z4, z5, z6, z7⟩,
    ⟨r1, r2, r3, r4, r5, r6, r7⟩⟩ := table_entries
  cases h with
  | one b0 rest h0 =>
    simp [DecodeRuneInString, first_as b0 h0, as, xx]
  | two b0 b1 rest h0 h1 =>
    simp only [DecodeRuneInString, first_s1 b0 h0, decode2_eq]
    simp only [ge_iff_le, a1, z1, r1, if_false, List.length_cons, Bool.or_eq_true,
      decide_eq_true_eq, le_refl, if_true]
    rw [if_neg (by omega), if_neg (by omega)]
    exact Prod.ext rfl (by simp only [List.length_cons]; omega)
  | three b0 b1 b2 rest h0 h1 hlo hhi h2 =>
    simp only [DecodeRuneInString, decode3_eq]
    have hc : b0.val = 0xE0 ∨ ((0xE1 ≤ b0.val ∧ b0.val ≤ 0xEC) ∨ (0xEE ≤ b0.val ∧ b0.val ≤ 0xEF))
        ∨ b0.val = 0xED := by omega
    rcases hc with hc | hc | hc
    · rw [first_s2 b0 hc]
      simp only [ge_iff_le, a2, z2, r2, if_false, List.length_cons, Bool.or_eq_true,
        decide_eq_true_eq, le_refl, if_true, locb, hicb]
      rw [if_neg (by omega), if_neg (by omega), if_neg (by omega), if_neg (by omega)]
      exact Prod.ext rfl (by simp only [List.length_cons]; omega)
    · rw [first_s3 b0 hc]
      simp only [ge_iff_le, a3, z3, r3, if_false, List.length_cons, Bool.or_eq_true,
        decide_eq_true_eq, le_refl, if_true, locb, hicb]
      rw [if_neg (by omega), if_neg (by omega), if_neg (by omega), if_neg (by omega)]
      exact Prod.ext rfl (by simp only [List.length_cons]; omega)
    · rw [first_s4 b0 hc]
      simp only [ge_iff_le, a4, z4, r4, if_false, List.length_cons, Bool.or_eq_true,
        decide_eq_true_eq, le_refl, if_true, locb, hicb]
      rw [if_neg (by omega), if_neg (by omega), if_neg (by omega), if_neg (by omega)]
      exact Prod.ext rfl (by simp only [List.length_cons]; omega)
  | four b0 b1 b2 b3 rest h0 h1 hlo hhi h2 h3 =>
    simp only [DecodeRuneInString, decode4_eq]
    have hc : b0.val = 0xF0 ∨ (0xF1 ≤ b0.val ∧ b0.val ≤ 0xF3) ∨ b0.val = 0xF4 := by omega
    rcases hc with hc | hc | hc
    · rw [first_s5 b0 hc]
      simp only [ge_iff_le, a5, z5, r5, if_false, List.length_cons, Bool.or_eq_true,
        decide_eq_true_eq, le_refl, if_true, locb, hicb]
      rw [if_neg (by omega), if_neg (by omega), if_neg (by omega), if_neg (by omega),
        if_neg (by omega), if_neg (by omega)]
      exact Prod.ext rfl (by simp only [List.length_cons]; omega)
    · rw [first_s6 b0 hc]
      simp only [ge_iff_le, a6, z6, r6, if_false, List.length_cons, Bool.or_eq_true,
        decide_eq_true_eq, le_refl, if_true, locb, hicb]
      rw [if_neg (by omega), if_neg (by omega), if_neg (by omega), if_neg (by omega),
        if_neg (by omega), if_neg (by omega)]
      exact Prod.ext rfl (by simp only [List.length_cons]; omega)
    · rw [first_s7 b0 hc]
      simp only [ge_iff_le, a7, z7, r7, if_false, List.length_cons, Bool.or_eq_true,
        decide_eq_true_eq, le_refl, if_true, locb, hicb]
      rw [if_neg (by omega), if_neg (by omega), if_neg (by omega), if_neg (by omega),
        if_neg (by omega), if_neg (by omega)]
      exact Prod.ext rfl (by simp only [List.length_cons]; omega)


/-- The first byte of a string falls in one of the nine classes of the table. -/
theorem first_cases (b : Byte) :
    b.val < 0x80 ∨ ((0x80 ≤ b.val ∧ b.val ≤ 0xC1) ∨ 0xF5 ≤ b.val) ∨
    (0xC2 ≤ b.val ∧ b.val ≤ 0xDF) ∨ b.val = 0xE0 ∨
    ((0xE1 ≤ b.val ∧ b.val ≤ 0xEC) ∨ (0xEE ≤ b.val ∧ b.val ≤ 0xEF)) ∨ b.val = 0xED ∨
    b.val = 0xF0 ∨ (0xF1 ≤ b.val ∧ b.val ≤ 0xF3) ∨ b.val = 0xF4 := by
  omega

theorem val_ofNat (x : Nat) : (Fin.ofNat x : Byte).val = x % 256 := rfl

theorem Lead.valid {s : GoString} {r : Nat} {rest : GoString} (h : Lead s r rest)
    (fuel : Nat) : validLoop (fuel + 1) s = validLoop fuel rest := by
  obtain ⟨-, ⟨x1, x2, x3, x4, x5, x6, x7, -⟩, ⟨z1, z2, z3, z4, z5, z6, z7⟩,
    ⟨r1, r2, r3, r4, r5, r6, r7⟩⟩ := table_entries
  cases h with
  | one b0 rest h0 =>
    simp only [validLoop, RuneSelf]
    rw [if_pos h0]
  | two b0 b1 rest h0 h1 =>
    simp only [validLoop, RuneSelf, first_s1 b0 h0, x1, z1, r1, if_false, List.length_cons,
      Bool.or_eq_true, decide_eq_true_eq, if_true, locb, hicb]
    rw [if_neg (by omega), if_neg (by omega), if_neg (by omega)]
  | three b0 b1 b2 rest h0 h1 hlo hhi h2 =>
    have hc : b0.val = 0xE0 ∨ ((0xE1 ≤ b0.val ∧ b0.val ≤ 0xEC) ∨ (0xEE ≤ b0.val ∧ b0.val ≤ 0xEF))
        ∨ b0.val = 0xED := by omega
    rcases hc with hc | hc | hc
    · simp only [validLoop, RuneSelf, first_s2 b0 hc, x2, z2, r2, if_false, List.length_cons,
        Bool.or_eq_true, decide_eq_true_eq, if_true, locb, hicb]
      rw [if_neg (by omega), if_neg (by omega), if_neg (by omega), if_neg (by omega),
        if_neg (by omega)]
    · simp only [validLoop, RuneSelf, first_s3 b0 hc, x3, z3, r3, if_false, List.length_cons,
        Bool.or_eq_true, decide_eq_true_eq, if_true, locb, hicb]
      rw [if_neg (by omega), if_neg (by omega), if_neg (by omega), if_neg (by omega),
        if_neg (by omega)]
    · simp only [validLoop, RuneSelf, first_s4 b0 hc, x4, z4, r4, if_false, List.length_cons,
        Bool.or_eq_true, decide_eq_true_eq, if_true, locb, hicb]
      rw [if_neg (by omega), if_neg (by omega), if_neg (by omega), if_neg (by omega),
        if_neg (by omega)]
  | four b0 b1 b2 b3 rest h0 h1 hlo hhi h2 h3 =>
    have hc : b0.val = 0xF0 ∨ (0xF1 ≤ b0.val ∧ b0.val ≤ 0xF3) ∨ b0.val = 0xF4 := by omega
    rcases hc with hc | hc | hc
    · simp only [validLoop, RuneSelf, first_s5 b0 hc, x5, z5, r5, if_false, List.length_cons,
        Bool.or_eq_true, decide_eq_true_eq, if_true, locb, hicb]
      rw [if_neg (by omega), if_neg (by omega), if_neg (by omega), if_neg (by omega),
        if_neg (by omega), if_neg (by omega), if_neg (by omega)]
    · simp only [validLoop, RuneSelf, first_s6 b0 hc, x6, z6, r6, if_false, List.length_cons,
        Bool.or_eq_true, decide_eq_true_eq, if_true, locb, hicb]
      rw [if_neg (by omega), if_neg (by omega), if_neg (by omega), if_neg (by omega),
        if_neg (by omega), if_neg (by omega), if_neg (by omega)]
    · simp only [validLoop, RuneSelf, first_s7 b0 hc, x7, z7, r7, if_false, List.length_cons,
        Bool.or_eq_true, decide_eq_true_eq, if_true, locb, hicb]
      rw [if_neg (by omega), if_neg (by omega), if_neg (by omega), if_neg (by omega),
        if_neg (by omega), if_neg (by omega), if_neg (by omega)]


theorem byte_eq (b : Byte) (x : Nat) (h : b.val = x) : (Fin.ofNat x : Byte) = b := by
  apply Fin.ext
  rw [val_ofNat, ← h]
  exact Nat.mod_eq_of_lt b.isLt

theorem Lead.validRune {s : GoString} {r : Nat} {rest : GoString} (h : Lead s r rest) :
    ValidRune r := by
  unfold ValidRune surrogateMin surrogateMax MaxRune
  cases h <;> omega

theorem Lead.encode {s : GoString} {r : Nat} {rest : GoString} (h : Lead s r rest) :
    s = EncodeRune r ++ rest := by
  unfold EncodeRune rune1Max rune2Max rune3Max surrogateMin surrogateMax MaxRune
  cases h with
  | one b0 rest h0 =>
    rw [if_pos (by omega), byte_eq b0 _ rfl]
    rfl
  | two b0 b1 rest h0 h1 =>
    rw [if_neg (by omega), if_pos (by omega), byte_eq b0 _ (by omega), byte_eq b1 _ (by omega)]
    rfl
  | three b0 b1 b2 rest h0 h1 hlo hhi h2 =>
    rw [if_neg (by omega), if_neg (by omega), if_neg (by omega), if_pos (by omega),
      byte_eq b0 _ (by omega), byte_eq b1 _ (by omega), byte_eq b2 _ (by omega)]
    rfl
  | four b0 b1 b2 b3 rest h0 h1 hlo hhi h2 h3 =>
    rw [if_neg (by omega), if_neg (by omega), if_neg (by omega), if_neg (by omega),
      byte_eq b0 _ (by omega), byte_eq b1 _ (by omega), byte_eq b2 _ (by omega),
      byte_eq b3 _ (by omega)]
    rfl

theorem Lead.length {s : GoString} {r : Nat} {rest : GoString} (h : Lead s r rest) :
    rest.length < s.length ∧ s.drop (s.length - rest.length) = rest := by
  cases h with
  | one b0 rest h0 =>
    refine ⟨by simp, ?_⟩
    rw [show (b0 :: rest).length - rest.length = 1 by simp]
    rfl
  | two b0 b1 rest h0 h1 =>
    refine ⟨by simp only [List.length_cons]; omega, ?_⟩
    rw [show (b0 :: b1 :: rest).length - rest.length = 2 by simp only [List.length_cons]; omega]
    rfl
  | three b0 b1 b2 rest h0 h1 hlo hhi h2 =>
    refine ⟨by simp only [List.length_cons]; omega, ?_⟩
    rw [show (b0 :: b1 :: b2 :: rest).length - rest.length = 3 by
      simp only [List.length_cons]; omega]
    rfl
  | four b0 b1 b2 b3 rest h0 h1 hlo hhi h2 h3 =>
    refine ⟨by simp only [List.length_cons]; omega, ?_⟩
    rw [show (b0 :: b1 :: b2 :: b3 :: rest).length - rest.length = 4 by
      simp only [List.length_cons]; omega]
    rfl

theorem Lead.of_encode (r : Nat) (hr : ValidRune r) (rest : GoString) :
    Lead (EncodeRune r ++ rest) r rest := by
  unfold ValidRune surrogateMin surrogateMax MaxRune at hr
  unfold EncodeRune rune1Max rune2Max rune3Max surrogateMin surrogateMax MaxRune
  by_cases c1 : r ≤ 0x7F
  · rw [if_pos c1]
    have h := Lead.one (Fin.ofNat r) rest (by rw [val_ofNat]; omega)
    rw [val_ofNat, Nat.mod_eq_of_lt (by omega)] at h
    exact h
  · rw [if_neg c1]
    by_cases c2 : r ≤ 0x7FF
    · rw [if_pos c2]
      have h := Lead.two (Fin.ofNat (0xC0 + r / 64)) (Fin.ofNat (0x80 + r % 64)) rest
        (by rw [val_ofNat]; omega) (by rw [val_ofNat]; omega)
      rw [val_ofNat, val_ofNat] at h
      have e : (0xC0 + r / 64) % 256 % 32 * 64 + (0x80 + r % 64) % 256 % 64 = r := by omega
      rw [e] at h
      exact h
    · rw [if_neg c2, if_neg (by omega)]
      by_cases c3 : r ≤ 0xFFFF
      · rw [if_pos c3]
        have h := Lead.three (Fin.ofNat (0xE0 + r / 4096)) (Fin.ofNat (0x80 + r / 64 % 64))
          (Fin.ofNat (0x80 + r % 64)) rest
          (by rw [val_ofNat]; omega) (by rw [val_ofNat]; omega)
          (by rw [val_ofNat, val_ofNat]; omega) (by rw [val_ofNat, val_ofNat]; omega)
          (by rw [val_ofNat]; omega)
        rw [val_ofNat, val_ofNat, val_ofNat] at h
        have e : (0xE0 + r / 4096) % 256 % 16 * 4096 + (0x80 + r / 64 % 64) % 256 % 64 * 64
            + (0x80 + r % 64) % 256 % 64 = r := by omega
        rw [e] at h
        exact h
      · rw [if_neg c3]
        have h := Lead.four (Fin.ofNat (0xF0 + r / 262144)) (Fin.ofNat (0x80 + r / 4096 % 64))
          (Fin.ofNat (0x80 + r / 64 % 64)) (Fin.ofNat (0x80 + r % 64)) rest
          (by rw [val_ofNat]; omega) (by rw [val_ofNat]; omega)
          (by rw [val_ofNat, val_ofNat]; omega) (by rw [val_ofNat, val_ofNat]; omega)
          (by rw [val_ofNat]; omega) (by rw [val_ofNat]; omega)
        rw [val_ofNat, val_ofNat, val_ofNat, val_ofNat] at h
        have e : (0xF0 + r / 262144) % 256 % 8 * 262144 + (0x80 + r / 4096 % 64) % 256 % 64 * 4096
            + (0x80 + r / 64 % 64) % 256 % 64 * 64 + (0x80 + r % 64) % 256 % 64 = r := by omega
        rw [e] at h
        exact h


theorem lead_of_valid (fuel : Nat) (b0 : Byte) (t : GoString)
    (h : validLoop (fuel + 1) (b0 :: t) = true) :
    ∃ r rest, Lead (b0 :: t) r rest ∧ validLoop fuel rest = true := by
  obtain ⟨-, ⟨x1, x2, x3, x4, x5, x6, x7, -⟩, ⟨z1, z2, z3, z4, z5, z6, z7⟩,
    ⟨r1, r2, r3, r4, r5, r6, r7⟩⟩ := table_entries
  rcases first_cases b0 with hc | hc | hc | hc | hc | hc | hc | hc | hc
  · refine ⟨_, _, Lead.one b0 t hc, ?_⟩
    rw [Lead.valid (Lead.one b0 t hc)] at h
    exact h
  · exfalso
    simp only [validLoop, RuneSelf, first_xx b0 hc, if_true] at h
    rw [if_neg (by omega)] at h
    exact Bool.false_ne_true h
  · simp only [validLoop, RuneSelf, first_s1 b0 hc, x1, z1, r1, if_false, List.length_cons,
      Bool.or_eq_true, decide_eq_true_eq, if_true, locb, hicb] at h
    rw [if_neg (by omega)] at h
    rcases t with _ | ⟨c1, rest1⟩
    · simp at h
    · rw [if_neg (by simp only [List.length_cons]; omega)] at h
      dsimp only at h
      by_cases hb : c1.val < 128 ∨ 191 < c1.val
      · rw [if_pos hb] at h
        exact absurd h Bool.false_ne_true
      · rw [if_neg hb] at h
        exact ⟨_, _, Lead.two b0 c1 rest1 (by omega) (by omega), h⟩
  · simp only [validLoop, RuneSelf, first_s2 b0 hc, x2, z2, r2, if_false, List.length_cons,
      Bool.or_eq_true, decide_eq_true_eq, if_true, locb, hicb] at h
    rw [if_neg (by omega)] at h
    rcases t with _ | ⟨c1, _ | ⟨c2, rest2⟩⟩
    · simp at h
    · simp at h
    · rw [if_neg (by simp only [List.length_cons]; omega)] at h
      dsimp only at h
      by_cases hb : c1.val < 160 ∨ 191 < c1.val
      · rw [if_pos hb] at h
        exact absurd h Bool.false_ne_true
      · rw [if_neg hb, if_neg (by omega)] at h
        by_cases hb2 : c2.val < 128 ∨ 191 < c2.val
        · rw [if_pos hb2] at h
          exact absurd h Bool.false_ne_true
        · rw [if_neg hb2] at h
          exact ⟨_, _, Lead.three b0 c1 c2 rest2 (by omega) (by omega) (by omega) (by omega)
            (by omega), h⟩
  · simp only [validLoop, RuneSelf, first_s3 b0 hc, x3, z3, r3, if_false, List.length_cons,
      Bool.or_eq_true, decide_eq_true_eq, if_true, locb, hicb] at h
    rw [if_neg (by omega)] at h
    rcases t with _ | ⟨c1, _ | ⟨c2, rest2⟩⟩
    · simp at h
    · simp at h
    · rw [if_neg (by simp only [List.length_cons]; omega)] at h
      dsimp only at h
      by_cases hb : c1.val < 128 ∨ 191 < c1.val
      · rw [if_pos hb] at h
        exact absurd h Bool.false_ne_true
      · rw [if_neg hb, if_neg (by omega)] at h
        by_cases hb2 : c2.val < 128 ∨ 191 < c2.val
        · rw [if_pos hb2] at h
          exact absurd h Bool.false_ne_true
        · rw [if_neg hb2] at h
          exact ⟨_, _, Lead.three b0 c1 c2 rest2 (by omega) (by omega) (by omega) (by omega)
            (by omega), h⟩
  · simp only [validLoop, RuneSelf, first_s4 b0 hc, x4, z4, r4, if_false, List.length_cons,
      Bool.or_eq_true, decide_eq_true_eq, if_true, locb, hicb] at h
    rw [if_neg (by omega)] at h
    rcases t with _ | ⟨c1, _ | ⟨c2, rest2⟩⟩
    · simp at h
    · simp at h
    · rw [if_neg (by simp only [List.length_cons]; omega)] at h
      dsimp only at h
      by_cases hb : c1.val < 128 ∨ 159 < c1.val
      · rw [if_pos hb] at h
        exact absurd h Bool.false_ne_true
      · rw [if_neg hb, if_neg (by omega)] at h
        by_cases hb2 : c2.val < 128 ∨ 191 < c2.val
        · rw [if_pos hb2] at h
          exact absurd h Bool.false_ne_true
        · rw [if_neg hb2] at h
          exact ⟨_, _, Lead.three b0 c1 c2 rest2 (by omega) (by omega) (by omega) (by omega)
            (by omega), h⟩
  · simp only [validLoop, RuneSelf, first_s5 b0 hc, x5, z5, r5, if_false, List.length_cons,
      Bool.or_eq_true, decide_eq_true_eq, if_true, locb, hicb] at h
    rw [if_neg (by omega)] at h
    rcases t with _ | ⟨c1, _ | ⟨c2, _ | ⟨c3, rest3⟩⟩⟩
    · simp at h
    · simp at h
    · simp at h
    · rw [if_neg (by simp only [List.length_cons]; omega)] at h
      dsimp only at h
      by_cases hb : c1.val < 144 ∨ 191 < c1.val
      · rw [if_pos hb] at h
        exact absurd h Bool.false_ne_true
      · rw [if_neg hb, if_neg (by omega)] at h
        by_cases hb2 : c2.val < 128 ∨ 191 < c2.val
        · rw [if_pos hb2] at h
          exact absurd h Bool.false_ne_true
        · rw [if_neg hb2, if_neg (by omega)] at h
          by_cases hb3 : c3.val < 128 ∨ 191 < c3.val
          · rw [if_pos hb3] at h
            exact absurd h Bool.false_ne_true
          · rw [if_neg hb3] at h
            exact ⟨_, _, Lead.four b0 c1 c2 c3 rest3 (by omega) (by omega) (by omega) (by omega)
              (by omega) (by omega), h⟩
  · simp only [validLoop, RuneSelf, first_s6 b0 hc, x6, z6, r6, if_false, List.length_cons,
      Bool.or_eq_true, decide_eq_true_eq, if_true, locb, hicb] at h
    rw [if_neg (by omega)] at h
    rcases t with _ | ⟨c1, _ | ⟨c2, _ | ⟨c3, rest3⟩⟩⟩
    · simp at h
    · simp at h
    · simp at h
    · rw [if_neg (by simp only [List.length_cons]; omega)] at h
      dsimp only at h
      by_cases hb : c1.val < 128 ∨ 191 < c1.val
      · rw [if_pos hb] at h
        exact absurd h Bool.false_ne_true
      · rw [if_neg hb, if_neg (by omega)] at h
        by_cases hb2 : c2.val < 128 ∨ 191 < c2.val
        · rw [if_pos hb2] at h
          exact absurd h Bool.false_ne_true
        · rw [if_neg hb2, if_neg (by omega)] at h
          by_cases hb3 : c3.val < 128 ∨ 191 < c3.val
          · rw [if_pos hb3] at h
            exact absurd h Bool.false_ne_true
          · rw [if_neg hb3] at h
            exact ⟨_, _, Lead.four b0 c1 c2 c3 rest3 (by omega) (by omega) (by omega) (by omega)
              (by omega) (by omega), h⟩
  · simp only [validLoop, RuneSelf, first_s7 b0 hc, x7, z7, r7, if_false, List.length_cons,
      Bool.or_eq_true, decide_eq_true_eq, if_true, locb, hicb] at h
    rw [if_neg (by omega)] at h
    rcases t with _ | ⟨c1, _ | ⟨c2, _ | ⟨c3, rest3⟩⟩⟩
    · simp at h
    · simp at h
    · simp at h
    · rw [if_neg (by simp only [List.length_cons]; omega)] at h
      dsimp only at h
      by_cases hb : c1.val < 128 ∨ 143 < c1.val
      · rw [if_pos hb] at h
        exact absurd h Bool.false_ne_true
      · rw [if_neg hb, if_neg (by omega)] at h
        by_cases hb2 : c2.val < 128 ∨ 191 < c2.val
        · rw [if_pos hb2] at h
          exact absurd h Bool.false_ne_true
        · rw [if_neg hb2, if_neg (by omega)] at h
          by_cases hb3 : c3.val < 128 ∨ 191 < c3.val
          · rw [if_pos hb3] at h
            exact absurd h Bool.false_ne_true
          · rw [if_neg hb3] at h
            exact ⟨_, _, Lead.four b0 c1 c2 c3 rest3 (by omega) (by omega) (by omega) (by omega)
              (by omega) (by omega), h⟩


theorem validLoop_nil (fuel : Nat) : validLoop fuel [] = true := by
  cases fuel <;> rfl

theorem encodeRunes_of_valid (fuel : Nat) :
    ∀ s : GoString, s.length ≤ fuel → validLoop fuel s = true →
      ∃ rs, (∀ r ∈ rs, ValidRune r) ∧ s = EncodeRunes rs := by
  induction fuel with
  | zero =>
    intro s hs _
    refine ⟨[], by simp, ?_⟩
    rw [List.length_eq_zero.mp (Nat.le_zero.mp hs)]
    rfl
  | succ fuel ih =>
    intro s hs hv
    rcases s with _ | ⟨b0, t⟩
    · exact ⟨[], by simp, rfl⟩
    · obtain ⟨r, rest, hl, hrest⟩ := lead_of_valid fuel b0 t hv
      obtain ⟨rs, hrs, e⟩ := ih rest (by have := hl.length.1; omega) hrest
      refine ⟨r :: rs, ?_, ?_⟩
      · intro x hx
        rcases List.mem_cons.mp hx with rfl | hx
        · exact hl.validRune
        · exact hrs x hx
      · rw [hl.encode, e]
        rfl

theorem valid_of_encodeRunes (rs : List Nat) (hrs : ∀ r ∈ rs, ValidRune r) :
    ∀ fuel, (EncodeRunes rs).length ≤ fuel → validLoop fuel (EncodeRunes rs) = true := by
  induction rs with
  | nil => intro fuel _; exact validLoop_nil fuel
  | cons r rs ih =>
    intro fuel hf
    have hl := Lead.of_encode r (hrs r (List.mem_cons_self r rs)) (EncodeRunes rs)
    have hlen := hl.length.1
    change (EncodeRune r ++ EncodeRunes rs).length ≤ fuel at hf
    change validLoop fuel (EncodeRune r ++ EncodeRunes rs) = true
    rcases fuel with _ | fuel
    · omega
    · rw [hl.valid]
      exact ih (fun x hx => hrs x (List.mem_cons_of_mem r hx)) fuel (by omega)

/-- `utf8.ValidString` accepts exactly the concatenations of encodings of
Unicode scalar values. -/
theorem validString_iff (s : GoString) :
    ValidString s = true ↔ ∃ rs, (∀ r ∈ rs, ValidRune r) ∧ s = EncodeRunes rs := by
  constructor
  · exact encodeRunes_of_valid s.length s (le_refl _)
  · rintro ⟨rs, hrs, rfl⟩
    exact valid_of_encodeRunes rs hrs _ (le_refl _)

theorem zero_not_mem_encodeRune (r : Nat) (h : r ≠ 0) : (0 : Byte) ∉ EncodeRune r := by
  unfold EncodeRune rune1Max rune2Max rune3Max surrogateMin surrogateMax MaxRune
  have key : ∀ x : Nat, x % 256 ≠ 0 → (0 : Byte) ≠ Fin.ofNat x := by
    intro x hx e
    have := congrArg Fin.val e
    rw [val_ofNat] at this
    exact hx this.symm
  split_ifs
  all_goals simp only [List.mem_cons, List.mem_singleton, List.not_mem_nil, or_false, not_or]
  · exact key _ (by omega)
  · exact ⟨key _ (by omega), key _ (by omega)⟩
  · decide
  · exact ⟨key _ (by omega), key _ (by omega), key _ (by omega)⟩
  · exact ⟨key _ (by omega), key _ (by omega), key _ (by omega), key _ (by omega)⟩

theorem zero_not_mem_encodeRunes (rs : List Nat) (h : ∀ r ∈ rs, r ≠ 0) :
    (0 : Byte) ∉ EncodeRunes rs := by
  induction rs with
  | nil => simp [EncodeRunes]
  | cons r rs ih =>
    simp only [EncodeRunes, List.mem_append, not_or]
    exact ⟨zero_not_mem_encodeRune r (h r (List.mem_cons_self r rs)),
      ih (fun x hx => h x (List.mem_cons_of_mem r hx))⟩


theorem Lead.exists_cons {s : GoString} {r : Nat} {rest : GoString} (h : Lead s r rest) :
    ∃ b t, s = b :: t := by
  cases h <;> exact ⟨_, _, rfl⟩

end utf8

open utf8

theorem validateLoop_step {s : GoString} {r : Nat} {rest : GoString} (h : Lead s r rest)
    (fuel index : Nat) :
    validateLoop (fuel + 1) index s =
      if r = minUnicodeRuneValue ∨ r = MaxUnicodeRuneValue then some (.notAllowed r index)
      else validateLoop fuel (index + (s.length - rest.length)) rest := by
  obtain ⟨b, t, rfl⟩ := h.exists_cons
  simp only [validateLoop, h.decode, h.length.2]

theorem validateLoop_nil (fuel index : Nat) : validateLoop fuel index [] = none := by
  cases fuel <;> rfl

theorem validateLoop_allowed (rs : List Nat) (hrs : ∀ r ∈ rs, AllowedRune r) :
    ∀ fuel index, (EncodeRunes rs).length ≤ fuel →
      validateLoop fuel index (EncodeRunes rs) = none := by
  induction rs with
  | nil => intro fuel index _; exact validateLoop_nil fuel index
  | cons r rs ih =>
    intro fuel index hf
    have hr := hrs r (List.mem_cons_self r rs)
    have hl := Lead.of_encode r hr.1 (EncodeRunes rs)
    have hlen := hl.length.1
    change (EncodeRune r ++ EncodeRunes rs).length ≤ fuel at hf
    change validateLoop fuel index (EncodeRune r ++ EncodeRunes rs) = none
    rcases fuel with _ | fuel
    · omega
    · rw [validateLoop_step hl, if_neg (by rintro (h | h); exact hr.2.1 h; exact hr.2.2 h)]
      exact ih (fun x hx => hrs x (List.mem_cons_of_mem r hx)) fuel _ (by omega)

theorem validateLoop_first (pre : List Nat) (r : Nat) (post : List Nat)
    (hpre : ∀ x ∈ pre, AllowedRune x) (hr : ValidRune r)
    (hbad : r = minUnicodeRuneValue ∨ r = MaxUnicodeRuneValue) :
    ∀ fuel index, (EncodeRunes (pre ++ r :: post)).length ≤ fuel →
      validateLoop fuel index (EncodeRunes (pre ++ r :: post))
        = some (.notAllowed r (index + (EncodeRunes pre).length)) := by
  induction pre with
  | nil =>
    intro fuel index hf
    have hl := Lead.of_encode r hr (EncodeRunes post)
    have hlen := hl.length.1
    change (EncodeRune r ++ EncodeRunes post).length ≤ fuel at hf
    change validateLoop fuel index (EncodeRune r ++ EncodeRunes post) = _
    rcases fuel with _ | fuel
    · omega
    · rw [validateLoop_step hl, if_pos hbad]
      rfl
  | cons x pre ih =>
    intro fuel index hf
    have hx := hpre x (List.mem_cons_self x pre)
    have hl := Lead.of_encode x hx.1 (EncodeRunes (pre ++ r :: post))
    have hlen := hl.length.1
    change (EncodeRune x ++ EncodeRunes (pre ++ r :: post)).length ≤ fuel at hf
    change validateLoop fuel index (EncodeRune x ++ EncodeRunes (pre ++ r :: post)) = _
    rcases fuel with _ | fuel
    · omega
    · rw [validateLoop_step hl, if_neg (by rintro (h | h); exact hx.2.1 h; exact hx.2.2 h),
        ih (fun y hy => hpre y (List.mem_cons_of_mem x hy)) fuel _ (by omega)]
      simp only [EncodeRunes, List.length_append]
      congr 2
      omega

/-- In a list of runes either all are allowed or there is a first one that is not. -/
theorem allowed_or_first (rs : List Nat) (hrs : ∀ r ∈ rs, ValidRune r) :
    (∀ r ∈ rs, AllowedRune r) ∨
    ∃ pre r post, rs = pre ++ r :: post ∧ (∀ x ∈ pre, AllowedRune x) ∧ ValidRune r ∧
      (r = minUnicodeRuneValue ∨ r = MaxUnicodeRuneValue) := by
  induction rs with
  | nil => left; simp
  | cons r rs ih =>
    have hr := hrs r (List.mem_cons_self r rs)
    by_cases hb : r = minUnicodeRuneValue ∨ r = MaxUnicodeRuneValue
    · right
      exact ⟨[], r, rs, rfl, by simp, hr, hb⟩
    · have ha : AllowedRune r := ⟨hr, fun h => hb (Or.inl h), fun h => hb (Or.inr h)⟩
      rcases ih (fun x hx => hrs x (List.mem_cons_of_mem r hx)) with h | ⟨pre, x, post, e, hp, hx, hbx⟩
      · left
        intro y hy
        rcases List.mem_cons.mp hy with rfl | hy
        · exact ha
        · exact h y hy
      · right
        refine ⟨r :: pre, x, post, by rw [e]; rfl, ?_, hx, hbx⟩
        intro y hy
        rcases List.mem_cons.mp hy with rfl | hy
        · exact ha
        · exact hp y hy

/-- The strings that `ValidateCompositeKeyAttribute` accepts are the
encodings of lists of allowed runes. -/
theorem validate_eq_none_iff (str : GoString) :
    ValidateCompositeKeyAttribute str = none ↔ AllowedString str := by
  unfold ValidateCompositeKeyAttribute AllowedString
  constructor
  · intro h
    by_cases hv : ValidString str = true
    · rw [if_neg (by simpa using hv)] at h
      obtain ⟨rs, hrs, rfl⟩ := (validString_iff str).mp hv
      rcases allowed_or_first rs hrs with ha | ⟨pre, r, post, rfl, hp, hr, hb⟩
      · exact ⟨rs, ha, rfl⟩
      · rw [validateLoop_first pre r post hp hr hb _ _ (le_refl _)] at h
        exact absurd h (by simp)
    · rw [if_pos (by simpa using hv)] at h
      exact absurd h (by simp)
  · rintro ⟨rs, hrs, rfl⟩
    have hv := (validString_iff (EncodeRunes rs)).mpr ⟨rs, fun r hr => (hrs r hr).1, rfl⟩
    rw [if_neg (by simpa using hv)]
    exact validateLoop_allowed rs hrs _ _ (le_refl _)

theorem zero_not_mem_of_validate {str : GoString}
    (h : ValidateCompositeKeyAttribute str = none) : (0 : Byte) ∉ str := by
  obtain ⟨rs, hrs, rfl⟩ := (validate_eq_none_iff str).mp h
  exact zero_not_mem_encodeRunes rs (fun r hr => (hrs r hr).2.1)

/-! ### The components of a key -/

theorem components_cons (cur : GoString) (b : Byte) (rest : GoString) :
    components cur (b :: rest) =
      if b = 0 then cur :: components [] rest else components (cur ++ [b]) rest := rfl

theorem components_append (a : GoString) (ha : (0 : Byte) ∉ a) :
    ∀ (cur rest : GoString), components cur (a ++ rest) = components (cur ++ a) rest := by
  induction a with
  | nil => intro cur rest; simp
  | cons b a ih =>
    intro cur rest
    have hb : b ≠ 0 := fun e => ha (e ▸ List.mem_cons_self b a)
    have ha' : (0 : Byte) ∉ a := fun h => ha (List.mem_cons_of_mem b h)
    rw [List.cons_append, components_cons, if_neg hb, ih ha', List.append_assoc]
    rfl

theorem components_of_not_mem (a : GoString) (ha : (0 : Byte) ∉ a) (cur : GoString) :
    components cur a = [] := by
  have h := components_append a ha cur []
  rw [List.append_nil] at h
  rw [h]
  rfl

theorem components_zero (cur rest : GoString) :
    components cur ((0 : Byte) :: rest) = cur :: components [] rest := by
  rw [components_cons, if_pos rfl]

theorem components_joinNul (cs : List GoString) (hcs : ∀ c ∈ cs, (0 : Byte) ∉ c)
    (last : GoString) (hlast : (0 : Byte) ∉ last) :
    components [] (joinNul cs ++ last) = cs := by
  induction cs with
  | nil => exact components_of_not_mem last hlast []
  | cons c cs ih =>
    simp only [joinNul, List.append_assoc, List.cons_append]
    rw [components_append c (hcs c (List.mem_cons_self c cs)), components_zero,
      ih (fun x hx => hcs x (List.mem_cons_of_mem c hx))]
    rfl

/-- Every string is its components, each followed by a NUL, followed by a
last part without a NUL; the components have no NUL either. -/
theorem components_spec (t : GoString) :
    ∀ cur : GoString, (0 : Byte) ∉ cur →
      (∀ c ∈ components cur t, (0 : Byte) ∉ c) ∧
      ∃ last, (0 : Byte) ∉ last ∧ cur ++ t = joinNul (components cur t) ++ last := by
  induction t with
  | nil =>
    intro cur hcur
    exact ⟨by simp [components], cur, hcur, by simp [components, joinNul]⟩
  | cons b t ih =>
    intro cur hcur
    by_cases hb : b = 0
    · subst hb
      obtain ⟨h1, last, hl, e⟩ := ih [] (by simp)
      rw [components_zero]
      refine ⟨?_, last, hl, ?_⟩
      · intro c hc
        rcases List.mem_cons.mp hc with rfl | hc
        · exact hcur
        · exact h1 c hc
      · simp only [joinNul, List.append_assoc, List.cons_append]
        rw [← e]
        rfl
    · have hcur' : (0 : Byte) ∉ cur ++ [b] := by
        simp only [List.mem_append, List.mem_singleton, not_or]
        exact ⟨hcur, fun e => hb e.symm⟩
      obtain ⟨h1, last, hl, e⟩ := ih (cur ++ [b]) hcur'
      rw [components_cons, if_neg hb]
      refine ⟨h1, last, hl, ?_⟩
      rw [← e, List.append_assoc]
      rfl

/-! ### `SplitCompositeKey` -/

theorem slice_prefix (pre suf : GoString) (ci : Nat) (h : ci ≤ pre.length) :
    slice (pre ++ suf) ci pre.length = pre.drop ci := by
  unfold slice
  rw [List.drop_append_of_le_length h]
  have : pre.length - ci = (pre.drop ci).length := by simp
  rw [this, List.take_left']
  rfl

theorem splitStep_zero (pre suf : GoString) (st : Nat × List GoString)
    (h : st.1 ≤ pre.length) :
    splitStep (pre ++ (0 : Byte) :: suf) st pre.length
      = (pre.length + 1, st.2 ++ [pre.drop st.1]) := by
  unfold splitStep
  rw [if_pos, slice_prefix pre _ st.1 h]
  simp only [List.getElem?_append_right (le_refl _), Nat.sub_self, List.getElem?_cons_zero,
    minUnicodeRuneValue]
  rfl

theorem splitStep_ne (pre suf : GoString) (b : Byte) (hb : b ≠ 0) (st : Nat × List GoString) :
    splitStep (pre ++ b :: suf) st pre.length = st := by
  unfold splitStep
  rw [if_neg]
  simp only [List.getElem?_append_right (le_refl _), Nat.sub_self, List.getElem?_cons_zero,
    Option.some.injEq, minUnicodeRuneValue]
  exact hb

theorem splitLoop_fold (key : GoString) :
    ∀ (suf pre : GoString) (ci : Nat) (comps : List GoString),
      key = pre ++ suf → ci ≤ pre.length →
      ((List.range' pre.length suf.length).foldl (splitStep key) (ci, comps)).2
        = comps ++ components (pre.drop ci) suf := by
  intro suf
  induction suf with
  | nil =>
    intro pre ci comps _ _
    simp [components]
  | cons b suf ih =>
    intro pre ci comps hkey hci
    have hkey' : key = (pre ++ [b]) ++ suf := by rw [hkey]; simp
    have hlen : (pre ++ [b]).length = pre.length + 1 := by simp
    rw [List.length_cons, List.range'_succ, List.foldl_cons, components_cons]
    by_cases hb : b = 0
    · subst hb
      rw [if_pos rfl]
      have e := splitStep_zero pre suf (ci, comps) hci
      rw [← hkey] at e
      rw [e]
      have := ih (pre ++ [0]) (pre.length + 1) (comps ++ [pre.drop ci]) hkey' (by rw [hlen])
      rw [hlen] at this
      rw [this, ← hlen, List.drop_length]
      simp
    · rw [if_neg hb]
      have e := splitStep_ne pre suf b hb (ci, comps)
      rw [← hkey] at e
      rw [e]
      have := ih (pre ++ [b]) ci comps hkey' (by rw [hlen]; omega)
      rw [hlen] at this
      rw [this, List.drop_append_of_le_length hci]

/-- The components that the loop of `SplitCompositeKey` collects are the
NUL-terminated components of the key without its first byte. -/
theorem splitLoop_eq (key : GoString) : (splitLoop key).2 = components [] key.tail := by
  unfold splitLoop
  rcases key with _ | ⟨b, t⟩
  · rfl
  · have := splitLoop_fold (b :: t) t [b] 1 [] rfl (le_refl _)
    simpa using this

/-- `SplitCompositeKey` on a key whose components are known. -/
theorem splitCompositeKey_of_components (b : Byte) (cs : List GoString)
    (hcs : ∀ c ∈ cs, (0 : Byte) ∉ c) (last : GoString) (hlast : (0 : Byte) ∉ last) :
    SplitCompositeKey (b :: (joinNul cs ++ last)) =
      if cs.length < 3 then
        .error (.notEnoughComponents (b :: (joinNul cs ++ last)) cs.length cs)
      else .ok (cs.getD 0 [], cs.drop 1) := by
  unfold SplitCompositeKey
  simp only [splitLoop_eq, List.tail_cons, components_joinNul cs hcs last hlast,
    numComponentsInKey]

/-! ### `CreateCompositeKey` -/

theorem encodeRune_min : EncodeRune minUnicodeRuneValue = [(0 : Byte)] := rfl

theorem createLoop_ok (attributes : List GoString)
    (h : ∀ a ∈ attributes, ValidateCompositeKeyAttribute a = none) :
    ∀ ck, createLoop ck attributes = .ok (ck ++ joinNul attributes) := by
  induction attributes with
  | nil => intro ck; simp [createLoop, joinNul]
  | cons a rest ih =>
    intro ck
    simp only [createLoop, h a (List.mem_cons_self a rest), encodeRune_min]
    rw [ih (fun x hx => h x (List.mem_cons_of_mem a hx))]
    simp [joinNul]

theorem createLoop_error (pre : List GoString) (a : GoString) (post : List GoString)
    (err : Error) (hpre : ∀ x ∈ pre, ValidateCompositeKeyAttribute x = none)
    (ha : ValidateCompositeKeyAttribute a = some err) :
    ∀ ck, createLoop ck (pre ++ a :: post) = .error err := by
  induction pre with
  | nil => intro ck; simp only [List.nil_append, createLoop, ha]
  | cons x pre ih =>
    intro ck
    simp only [List.cons_append, createLoop, hpre x (List.mem_cons_self x pre)]
    exact ih (fun y hy => hpre y (List.mem_cons_of_mem x hy)) _

theorem createCompositeKey_ok (objectType : GoString) (attributes : List GoString)
    (h : ∀ s ∈ objectType :: attributes, ValidateCompositeKeyAttribute s = none) :
    CreateCompositeKey objectType attributes
      = .ok ((0 : Byte) :: joinNul (objectType :: attributes)) := by
  unfold CreateCompositeKey
  simp only [h objectType (List.mem_cons_self _ _), encodeRune_min]
  rw [createLoop_ok attributes (fun a ha => h a (List.mem_cons_of_mem _ ha))]
  simp [joinNul, CompositeKeyNamespace]

theorem createCompositeKey_error (objectType : GoString) (attributes : List GoString)
    (pre : List GoString) (s : GoString) (post : List GoString) (err : Error)
    (e : objectType :: attributes = pre ++ s :: post)
    (hpre : ∀ x ∈ pre, ValidateCompositeKeyAttribute x = none)
    (hs : ValidateCompositeKeyAttribute s = some err) :
    CreateCompositeKey objectType attributes = .error err := by
  unfold CreateCompositeKey
  rcases pre with _ | ⟨x, pre⟩
  · simp only [List.nil_append, List.cons.injEq] at e
    obtain ⟨rfl, rfl⟩ := e
    simp only [hs]
  · simp only [List.cons_append, List.cons.injEq] at e
    obtain ⟨rfl, rfl⟩ := e
    simp only [hpre objectType (List.mem_cons_self _ _)]
    exact createLoop_error pre s post err (fun y hy => hpre y (List.mem_cons_of_mem _ hy)) hs _

/-- In a list of strings either all pass `ValidateCompositeKeyAttribute` or
there is a first one that fails. -/
theorem all_valid_or_first (l : List GoString) :
    (∀ s ∈ l, ValidateCompositeKeyAttribute s = none) ∨
    ∃ pre s post err, l = pre ++ s :: post ∧
      (∀ x ∈ pre, ValidateCompositeKeyAttribute x = none) ∧
      ValidateCompositeKeyAttribute s = some err := by
  induction l with
  | nil => left; simp
  | cons a l ih =>
    cases hv : ValidateCompositeKeyAttribute a with
    | some err => right; exact ⟨[], a, l, err, rfl, by simp, hv⟩
    | none =>
      rcases ih with h | ⟨pre, s, post, err, e, hp, hs⟩
      · left
        intro x hx
        rcases List.mem_cons.mp hx with rfl | hx
        · exact hv
        · exact h x hx
      · right
        refine ⟨a :: pre, s, post, err, by rw [e]; rfl, ?_, hs⟩
        intro x hx
        rcases List.mem_cons.mp hx with rfl | hx
        · exact hv
        · exact hp x hx

namespace strconv

/-! ### `strconv.Itoa` and `strconv.Atoi` -/

theorem formatBits_digit (fuel : Nat) :
    ∀ u, ∀ b ∈ formatBits fuel u, 48 ≤ b.val ∧ b.val ≤ 57 := by
  induction fuel with
  | zero => intro u b hb; simp [formatBits] at hb
  | succ fuel ih =>
    intro u b hb
    unfold formatBits at hb
    split_ifs at hb with h
    · rw [List.mem_singleton] at hb
      subst hb
      rw [val_ofNat]
      omega
    · rcases List.mem_append.mp hb with hb | hb
      · exact ih _ b hb
      · rw [List.mem_singleton] at hb
        subst hb
        rw [val_ofNat]
        omega

theorem formatBits_ne_nil (fuel u : Nat) : formatBits (fuel + 1) u ≠ [] := by
  unfold formatBits
  split_ifs <;> simp

theorem formatBits_length (fuel : Nat) :
    ∀ u k, u < 10 ^ k → 1 ≤ k → (formatBits fuel u).length ≤ k := by
  induction fuel with
  | zero => intro u k _ _; simp [formatBits]
  | succ fuel ih =>
    intro u k hu hk
    unfold formatBits
    split_ifs with h
    · simpa using hk
    · obtain ⟨k, rfl⟩ : ∃ j, k = j + 1 := ⟨k - 1, by omega⟩
      have hk1 : 1 ≤ k := by
        rcases k with _ | k
        · simp at hu; omega
        · omega
      have : u / 10 < 10 ^ k := by
        rw [Nat.div_lt_iff_lt_mul (by norm_num)]
        rw [pow_succ] at hu
        exact hu
      have := ih (u / 10) k this hk1
      simp only [List.length_append, List.length_singleton]
      omega

theorem atoiFast_append (a b : GoString) :
    ∀ n, atoiFast n (a ++ b) = (atoiFast n a).bind (fun m => atoiFast m b) := by
  induction a with
  | nil => intro n; rfl
  | cons ch a ih =>
    intro n
    simp only [List.cons_append, atoiFast]
    split_ifs
    · rfl
    · exact ih _

theorem atoiFast_digit (n d : Nat) (hd : d < 10) :
    atoiFast n [Fin.ofNat (48 + d)] = some (n * 10 + d) := by
  simp only [atoiFast, val_ofNat]
  rw [if_neg (by omega)]
  congr 2
  omega

theorem atoiFast_formatBits (fuel : Nat) :
    ∀ u, u < 10 ^ fuel → atoiFast 0 (formatBits fuel u) = some u := by
  induction fuel with
  | zero => intro u hu; simp at hu; subst hu; rfl
  | succ fuel ih =>
    intro u hu
    unfold formatBits
    split_ifs with h
    · rw [atoiFast_digit 0 u h]; simp
    · have : u / 10 < 10 ^ fuel := by
        rw [Nat.div_lt_iff_lt_mul (by norm_num)]
        rw [pow_succ] at hu
        exact hu
      rw [atoiFast_append, ih _ this, Option.some_bind, atoiFast_digit _ _ (Nat.mod_lt _ (by norm_num))]
      congr 1
      omega

/-- `Atoi` reads back what `Itoa` writes, for a non-negative number of at
most 18 digits. -/
theorem atoi_itoa (n : Nat) (hn : n < 10 ^ 18) : Atoi (Itoa (n : Int)) = .ok (n : Int) := by
  have e : Itoa (n : Int) = formatBits 20 n := by
    unfold Itoa
    rw [if_neg (by omega)]
    rfl
  rw [e]
  have hlen := formatBits_length 20 n 18 hn (by norm_num)
  have hfast := atoiFast_formatBits 20 n (lt_of_lt_of_le hn (by norm_num))
  have hdig := formatBits_digit 20 n
  have hne := formatBits_ne_nil 19 n
  rcases hs : formatBits 20 n with _ | ⟨s0, rest⟩
  · exact absurd hs hne
  · rw [hs] at hlen hfast hdig
    have h0 := hdig s0 (List.mem_cons_self _ _)
    have hs0 : ¬ (s0 = (45 : Byte) ∨ s0 = (43 : Byte)) := by
      rintro (h | h) <;> rw [h] at h0 <;> revert h0 <;> decide
    have hs0' : s0 ≠ (45 : Byte) := fun h => hs0 (Or.inl h)
    unfold Atoi
    simp only [if_neg hs0, if_neg hs0', hfast]
    rw [if_pos (by omega), if_neg (by simp)]

end strconv

namespace strconv

theorem formatBits_eq_digits (fuel : Nat) :
    ∀ u, 0 < u → u < 10 ^ fuel →
      formatBits fuel u = (Nat.digits 10 u).reverse.map (fun d => (Fin.ofNat (48 + d) : Byte)) := by
  induction fuel with
  | zero => intro u h0 hu; simp at hu; omega
  | succ fuel ih =>
    intro u h0 hu
    unfold formatBits
    split_ifs with h
    · rw [Nat.digits_of_lt 10 u (by omega) h]
      rfl
    · have hlt : u / 10 < 10 ^ fuel := by
        rw [Nat.div_lt_iff_lt_mul (by norm_num)]
        rw [pow_succ] at hu
        exact hu
      rw [ih (u / 10) (by omega) hlt, Nat.digits_def' (by norm_num) h0]
      simp

/-- `Itoa` writes the decimal representation of every 64-bit integer. -/
theorem itoa_eq_decimal (i : Int) (hlo : -(2 ^ 63) ≤ i) (hhi : i < 2 ^ 63) :
    Itoa i = decimal i := by
  have hb : i.natAbs < 10 ^ 20 := by omega
  have key : formatBits 20 i.natAbs =
      if i.natAbs = 0 then [48]
      else ((Nat.digits 10 i.natAbs).reverse.map (fun d => (Fin.ofNat (48 + d) : Byte))) := by
    split_ifs with h
    · rw [h]; rfl
    · exact formatBits_eq_digits 20 _ (by omega) hb
  unfold Itoa decimal
  simp only [key]

end strconv

/-- A string of ASCII characters other than NUL passes the validation. -/
theorem allowedString_of_ascii (s : GoString) (h : ∀ b ∈ s, 1 ≤ b.val ∧ b.val < 0x80) :
    AllowedString s := by
  refine ⟨s.map Fin.val, ?_, ?_⟩
  · intro r hr
    obtain ⟨b, hb, rfl⟩ := List.mem_map.mp hr
    have := h b hb
    unfold AllowedRune ValidRune surrogateMin surrogateMax MaxRune minUnicodeRuneValue
      MaxUnicodeRuneValue MaxRune
    omega
  · induction s with
    | nil => rfl
    | cons b s ih =>
      have hb := h b (List.mem_cons_self b s)
      rw [List.map_cons, EncodeRunes, ← ih (fun x hx => h x (List.mem_cons_of_mem b hx))]
      unfold EncodeRune rune1Max
      rw [if_pos (by omega)]
      have : (Fin.ofNat b.val : Byte) = b := by
        apply Fin.ext
        show b.val % 256 = b.val
        omega
      rw [this]
      rfl

theorem allowedString_itoa (i : Int) : AllowedString (strconv.Itoa i) := by
  apply allowedString_of_ascii
  intro b hb
  unfold strconv.Itoa at hb
  have hd := strconv.formatBits_digit 20 i.natAbs
  split_ifs at hb
  · rcases List.mem_cons.mp hb with rfl | hb
    · decide
    · have := hd b hb; omega
  · have := hd b hb; omega

/-! ### `GetTokenIdFromKey` -/

/-- `GetTokenIdFromKey` in terms of the components of the key. -/
theorem getTokenIdFromKey_eq (key : GoString) :
    GetTokenIdFromKey key =
      match components [] key.tail with
      | [_, c1, c2] =>
        (match strconv.Atoi c2 with
          | .error err => .error (.errorParsingIndex c2 err)
          | .ok index => .ok { TxId := c1, Index := uint32 index })
      | _ :: c1 :: c2 :: c3 :: cs => .error (.wrongNumberOfComponents (c1 :: c2 :: c3 :: cs))
      | cs => .error (.errorSplitting (.notEnoughComponents key cs.length cs)) := by
  unfold GetTokenIdFromKey SplitCompositeKey
  simp only [splitLoop_eq, numComponentsInKey]
  rcases components [] key.tail with _ | ⟨c0, _ | ⟨c1, _ | ⟨c2, _ | ⟨c3, cs⟩⟩⟩⟩
  · rfl
  · rfl
  · rfl
  · simp only [List.length_cons, List.length_nil, Nat.reduceAdd, lt_self_iff_false, if_false,
      List.drop_succ_cons, List.drop_zero, ne_eq, not_true_eq_false, List.getD_cons_succ,
      List.getD_cons_zero]
    cases strconv.Atoi c2 <;> rfl
  · simp only [List.length_cons, List.drop_succ_cons, List.drop_zero]
    rw [if_neg (by omega)]
    dsimp only
    rw [if_pos (by simp only [List.length_cons]; omega)]

/-- `GetTokenIdFromKey` on a key built by `CreateCompositeKey` from a
transaction identifier and an index. -/
theorem getTokenIdFromKey_create (objectType txID : GoString) (n : Nat)
    (hobj : ValidateCompositeKeyAttribute objectType = none) (htx : AllowedString txID)
    (hn : n < 2 ^ 32) :
    ∃ k, CreateCompositeKey objectType [txID, strconv.Itoa (n : Int)] = .ok k ∧
      GetTokenIdFromKey k = .ok { TxId := txID, Index := n } := by
  have htx' := (validate_eq_none_iff txID).mpr htx
  have hidx := (validate_eq_none_iff _).mpr (allowedString_itoa (n : Int))
  have hall : ∀ s ∈ objectType :: [txID, strconv.Itoa (n : Int)],
      ValidateCompositeKeyAttribute s = none := by
    intro s hs
    simp only [List.mem_cons, List.mem_singleton, List.not_mem_nil, or_false] at hs
    rcases hs with rfl | rfl | rfl
    · exact hobj
    · exact htx'
    · exact hidx
  refine ⟨_, createCompositeKey_ok objectType _ hall, ?_⟩
  have hz : ∀ c ∈ objectType :: [txID, strconv.Itoa (n : Int)], (0 : Byte) ∉ c :=
    fun c hc => zero_not_mem_of_validate (hall c hc)
  have hc := components_joinNul _ hz [] (by simp)
  rw [List.append_nil] at hc
  rw [getTokenIdFromKey_eq, List.tail_cons, hc]
  simp only []
  rw [strconv.atoi_itoa n (lt_of_lt_of_le hn (by norm_num))]
  simp only [uint32]
  congr 2
  omega

/-! ### The code points of a string are unique -/

theorem encodeRunes_injective (rs : List Nat) (hrs : ∀ r ∈ rs, ValidRune r) :
    ∀ rs' : List Nat, (∀ r ∈ rs', ValidRune r) → EncodeRunes rs = EncodeRunes rs' → rs = rs' := by
  induction rs with
  | nil =>
    intro rs' hrs' e
    rcases rs' with _ | ⟨r', rs'⟩
    · rfl
    · have hl := (Lead.of_encode r' (hrs' r' (List.mem_cons_self _ _)) (EncodeRunes rs')).length.1
      have : (EncodeRunes (r' :: rs')).length = 0 := by rw [← e]; rfl
      change (EncodeRune r' ++ EncodeRunes rs').length = 0 at this
      omega
  | cons r rs ih =>
    intro rs' hrs' e
    have hl := Lead.of_encode r (hrs r (List.mem_cons_self _ _)) (EncodeRunes rs)
    rcases rs' with _ | ⟨r', rs'⟩
    · have h1 := hl.length.1
      have : (EncodeRunes (r :: rs)).length = 0 := by rw [e]; rfl
      change (EncodeRune r ++ EncodeRunes rs).length = 0 at this
      omega
    · have hl' := Lead.of_encode r' (hrs' r' (List.mem_cons_self _ _)) (EncodeRunes rs')
      change EncodeRune r ++ EncodeRunes rs = EncodeRune r' ++ EncodeRunes rs' at e
      have hd := hl.decode
      rw [e, hl'.decode] at hd
      have hr : r' = r := congrArg Prod.fst hd
      subst hr
      rw [ih (fun x hx => hrs x (List.mem_cons_of_mem _ hx)) rs'
        (fun x hx => hrs' x (List.mem_cons_of_mem _ hx)) (List.append_cancel_left e)]

/-! ### Counting the NUL bytes of a key -/

theorem count_zero_of_not_mem (a : GoString) (h : (0 : Byte) ∉ a) : a.count 0 = 0 :=
  List.count_eq_zero.mpr h

theorem count_zero_joinNul (cs : List GoString) (hcs : ∀ c ∈ cs, (0 : Byte) ∉ c) :
    (joinNul cs).count 0 = cs.length := by
  induction cs with
  | nil => rfl
  | cons c cs ih =>
    rw [joinNul, List.count_append, List.count_cons_self,
      count_zero_of_not_mem c (hcs c (List.mem_cons_self _ _)),
      ih (fun x hx => hcs x (List.mem_cons_of_mem _ hx)), List.length_cons]
    omega

theorem length_components (t : GoString) : (components [] t).length = t.count 0 := by
  obtain ⟨h1, last, hl, e⟩ := components_spec t [] (by simp)
  rw [List.nil_append] at e
  conv_rhs => rw [e]
  rw [List.count_append, count_zero_joinNul _ h1, count_zero_of_not_mem last hl]
  rfl

/-- The keys that `GetTokenIdFromKey` accepts, and what it returns on them. -/
theorem getTokenIdFromKey_ok_iff (key : GoString) (id : Id) :
    GetTokenIdFromKey key = .ok id ↔
      ∃ (b : Byte) (c0 c1 c2 last : GoString) (n : Int),
        key = b :: (c0 ++ (0 : Byte) :: (c1 ++ (0 : Byte) :: (c2 ++ (0 : Byte) :: last))) ∧
        (0 : Byte) ∉ c0 ∧ (0 : Byte) ∉ c1 ∧ (0 : Byte) ∉ c2 ∧ (0 : Byte) ∉ last ∧
        strconv.Atoi c2 = .ok n ∧ id = { TxId := c1, Index := uint32 n } := by
  constructor
  · intro h
    rw [getTokenIdFromKey_eq] at h
    obtain ⟨h1, last, hl, e⟩ := components_spec key.tail [] (by simp)
    rw [List.nil_append] at e
    rcases hc : components [] key.tail with _ | ⟨c0, _ | ⟨c1, _ | ⟨c2, _ | ⟨c3, cs⟩⟩⟩⟩
    · rw [hc] at h; exact absurd h (by simp)
    · rw [hc] at h; exact absurd h (by simp)
    · rw [hc] at h; exact absurd h (by simp)
    · rw [hc] at h e h1
      simp only [] at h
      cases ha : strconv.Atoi c2 with
      | error err => rw [ha] at h; exact absurd h (by simp)
      | ok n =>
        rw [ha] at h
        simp only [Except.ok.injEq] at h
        rcases key with _ | ⟨b, t⟩
        · simp [joinNul] at e
        · refine ⟨b, c0, c1, c2, last, n, ?_, h1 c0 (by simp), h1 c1 (by simp), h1 c2 (by simp),
            hl, ha, h.symm⟩
          rw [List.tail_cons] at e
          rw [e]
          simp [joinNul]
    · rw [hc] at h; exact absurd h (by simp)
  · rintro ⟨b, c0, c1, c2, last, n, rfl, h0, h1, h2, hl, ha, rfl⟩
    have hc := components_joinNul [c0, c1, c2] (by
      intro c hc
      simp only [List.mem_cons, List.mem_singleton, List.not_mem_nil, or_false] at hc
      rcases hc with rfl | rfl | rfl <;> assumption) last hl
    have e : c0 ++ (0 : Byte) :: (c1 ++ (0 : Byte) :: (c2 ++ (0 : Byte) :: last))
        = joinNul [c0, c1, c2] ++ last := by simp [joinNul]
    rw [getTokenIdFromKey_eq, List.tail_cons, e, hc]
    simp only [ha]

end Keys

/-! ## The proof engine: completeness and the range failure -/

namespace Crypto

variable {F : Type} [CommRing F] [DecidableEq F]
variable {Grp : Type} [AddCommGroup Grp] [Module F Grp] [DecidableEq Grp]

set_option linter.unusedSectionVars false

/-! ### Lists -/

theorem zipWith_map_self {α β γ : Type} (g : α → β → γ) (f : α → β) (l : List α) :
    List.zipWith g l (l.map f) = l.map (fun a => g a (f a)) := by
  induction l with
  | nil => rfl
  | cons a l ih => simp [ih]

theorem zipWith_map_map {α β γ δ : Type} (g : β → γ → δ) (f1 : α → β) (f2 : α → γ)
    (l : List α) :
    List.zipWith g (l.map f1) (l.map f2) = l.map (fun a => g (f1 a) (f2 a)) := by
  induction l with
  | nil => rfl
  | cons a l ih => simp [ih]

theorem zip_map_map {α β γ : Type} (f1 : α → β) (f2 : α → γ) (l : List α) :
    (l.map f1).zip (l.map f2) = l.map (fun a => (f1 a, f2 a)) := by
  induction l with
  | nil => rfl
  | cons a l ih => simp [ih]

theorem map_eq_map_range {α β : Type} (l : List α) (d : α) (f : α → β) :
    l.map f = (List.range l.length).map (fun k => f (l.getD k d)) := by
  apply List.ext_getElem
  · simp
  · intro n h1 h2
    simp only [List.getElem_map, List.getElem_range]
    rw [List.getD_eq_getElem]

theorem mapM_ok {α β : Type} (f : α → Except Error β) (g : α → β) (l : List α)
    (h : ∀ a ∈ l, f a = .ok (g a)) : (l.map f).mapM id = .ok (l.map g) := by
  induction l with
  | nil => rfl
  | cons a l ih =>
    rw [List.map_cons, List.mapM_cons, id, h a (List.mem_cons_self a l),
      ih (fun x hx => h x (List.mem_cons_of_mem a hx))]
    rfl

theorem sum_ite_range {M : Type} [AddCommMonoid M] (f : Nat → M) (a : M) (k : Nat) :
    ∀ b, k < b →
      ((List.range b).map (fun j => if j = k then a else f j)).sum
        = a + ((List.range b).map (fun j => if j = k then 0 else f j)).sum := by
  have hlt : ∀ b, b ≤ k → ∀ x : M,
      ((List.range b).map (fun j => if j = k then x else f j)).sum
        = ((List.range b).map f).sum := by
    intro b hb x
    congr 1
    apply List.map_congr_left
    intro j hj
    rw [if_neg (by have := List.mem_range.mp hj; omega)]
  intro b
  induction b with
  | zero => intro h; omega
  | succ b ih =>
    intro h
    rw [List.range_succ, List.map_append, List.map_append, List.sum_append, List.sum_append]
    by_cases hk : k = b
    · subst hk
      rw [hlt k (le_refl _) a, hlt k (le_refl _) 0]
      simp only [List.map_cons, List.map_nil, List.sum_cons, List.sum_nil, if_true, add_zero]
      rw [add_comm]
    · rw [ih (by omega)]
      simp only [List.map_cons, List.map_nil, List.sum_cons, List.sum_nil, add_zero]
      rw [if_neg (fun e => hk e.symm), if_neg (fun e => hk e.symm), add_assoc]

/-! ### The range proof -/

namespace Range

theorem digits_sum (b v : Nat) :
    ∀ d, ((List.range d).map (fun i => b ^ i * (v / b ^ i % b))).sum = v % b ^ d := by
  intro d
  induction d with
  | zero => simp [Nat.mod_one]
  | succ d ih =>
    rw [List.range_succ, List.map_append, List.sum_append, ih, Nat.mod_pow_succ]
    simp

theorem blinding_sum (pp : PublicParams Grp) (bf : F) (rnd : RangeRandomness F)
    (hd : 1 ≤ pp.rangeDigits) :
    ((List.range pp.rangeDigits).map
      (fun i => (pp.rangeBase : F) ^ i * blinding pp bf rnd i)).sum = bf := by
  obtain ⟨n, hn⟩ : ∃ n, pp.rangeDigits = n + 1 := ⟨pp.rangeDigits - 1, by omega⟩
  have h0 : blinding pp bf rnd 0 = bf - ((List.range n).map
      (fun k => (pp.rangeBase : F) ^ (k + 1) * rnd.digitBlinding (k + 1))).sum := by
    unfold blinding
    rw [if_pos rfl, hn, Nat.add_sub_cancel]
  rw [hn, List.range_succ_eq_map, List.map_cons, List.sum_cons, List.map_map, h0]
  have : (List.map ((fun i => (pp.rangeBase : F) ^ i * blinding pp bf rnd i) ∘ Nat.succ)
      (List.range n)) = (List.range n).map
      (fun k => (pp.rangeBase : F) ^ (k + 1) * rnd.digitBlinding (k + 1)) := by
    apply List.map_congr_left
    intro k _
    simp [blinding]
  rw [this]
  ring

theorem branchMessage_proverBranch (hash : List Grp → F) (pp : PublicParams Grp) (C : Grp)
    (v : Nat) (bf : F) (rnd : RangeRandomness F)
    (htable : ∀ j, j < pp.rangeBase → tableEntry pp j = (j : F) • pp.generatorG)
    (hbase : 0 < pp.rangeBase) (i j : Nat) :
    branchMessage pp (digitCommitment pp v bf rnd i) j (proverBranch hash pp C v bf rnd i j)
      = proverMessage pp v bf rnd i j := by
  unfold proverBranch proverMessage
  by_cases hj : j = digit pp v i
  · rw [if_pos hj, if_pos hj]
    have hlt : j < pp.rangeBase := by
      rw [hj]
      exact Nat.mod_lt _ hbase
    simp only [branchMessage, digitCommitment, htable j hlt, ← hj]
    module
  · rw [if_neg hj, if_neg hj]

theorem challenge_shares_sum (hash : List Grp → F) (pp : PublicParams Grp) (C : Grp)
    (v : Nat) (bf : F) (rnd : RangeRandomness F) (hbase : 0 < pp.rangeBase) (i : Nat) :
    (((List.range pp.rangeBase).map (proverBranch hash pp C v bf rnd i)).map Prod.fst).sum
      = proverChallenge hash pp C v bf rnd := by
  rw [List.map_map]
  have e : (Prod.fst ∘ proverBranch hash pp C v bf rnd i) =
      fun j => if j = digit pp v i then
        proverChallenge hash pp C v bf rnd - ((List.range pp.rangeBase).map
          (fun k => if k = digit pp v i then 0 else rnd.simulatedChallenge i k)).sum
        else rnd.simulatedChallenge i j := by
    funext j
    simp only [Function.comp, proverBranch]
    split_ifs <;> rfl
  rw [e, sum_ite_range (fun j => rnd.simulatedChallenge i j) _ (digit pp v i) _
    (Nat.mod_lt _ hbase)]
  ring

theorem reconstruction (pp : PublicParams Grp) (v : Nat) (bf : F) (rnd : RangeRandomness F)
    (hd : 1 ≤ pp.rangeDigits) (hv : v < pp.rangeBase ^ pp.rangeDigits) :
    ((List.range pp.rangeDigits).map
      (fun i => ((pp.rangeBase : F) ^ i) • digitCommitment pp v bf rnd i)).sum
      = (v : F) • pp.generatorG + bf • pp.generatorH := by
  have hG : ((List.range pp.rangeDigits).map
      (fun i => (pp.rangeBase : F) ^ i * (digit pp v i : F))).sum = (v : F) := by
    have h := digits_sum pp.rangeBase v pp.rangeDigits
    rw [Nat.mod_eq_of_lt hv] at h
    have h' := congrArg (fun n : Nat => (n : F)) h
    simp only [Nat.cast_list_sum, List.map_map] at h'
    rw [← h']
    congr 1
    apply List.map_congr_left
    intro k _
    simp [digit]
  have hH := blinding_sum pp bf rnd hd
  have split : ∀ l : List Nat, (l.map
      (fun i => ((pp.rangeBase : F) ^ i) • digitCommitment pp v bf rnd i)).sum
      = (l.map (fun i => (pp.rangeBase : F) ^ i * (digit pp v i : F))).sum • pp.generatorG
        + (l.map (fun i => (pp.rangeBase : F) ^ i * blinding pp bf rnd i)).sum
          • pp.generatorH := by
    intro l
    induction l with
    | nil => simp
    | cons a l ih =>
      simp only [List.map_cons, List.sum_cons]
      rw [ih]
      unfold digitCommitment
      module
  rw [split, hG, hH]

/-- The digits of `v` stand for the remainder of `v` modulo
`rangeBase^rangeDigits`. -/
theorem digitsValue_eq (pp : PublicParams Grp) (v : Nat) :
    digitsValue pp v = v % pp.rangeBase ^ pp.rangeDigits := by
  rw [← digits_sum pp.rangeBase v pp.rangeDigits]
  unfold digitsValue digit
  congr 1
  apply List.map_congr_left
  intro i _
  exact Nat.mul_comm _ _

theorem prove_ok (hash : List Grp → F) (pp : PublicParams Grp) (C : Grp) (v : Nat)
    (bf : F) (rnd : RangeRandomness F) (hv : v < pp.rangeBase ^ pp.rangeDigits) :
    Prove hash pp C v bf rnd = .ok (assemble hash pp C v bf rnd) := by
  unfold Prove
  rw [if_pos (by rw [digitsValue_eq]; exact Nat.mod_eq_of_lt hv)]

/-- Completeness of the range proof: the verifier accepts the proof that the
prover assembles for a value in the range. -/
theorem verify_assemble (hash : List Grp → F) (pp : PublicParams Grp) (C T : Grp) (v : Nat)
    (bf : F) (rnd : RangeRandomness F)
    (htable : ∀ j, j < pp.rangeBase → tableEntry pp j = (j : F) • pp.generatorG)
    (hbase : 0 < pp.rangeBase) (hd : 1 ≤ pp.rangeDigits)
    (hv : v < pp.rangeBase ^ pp.rangeDigits)
    (hC : C - T = (v : F) • pp.generatorG + bf • pp.generatorH) :
    Verify hash pp C T (assemble hash pp C v bf rnd) = true := by
  unfold Verify assemble
  simp only [List.map_map, List.length_map, List.length_range, Function.comp_def,
    zipWith_map_self, branchMessage_proverBranch hash pp C v bf rnd htable hbase,
    decide_True, Bool.true_and, Bool.and_eq_true, List.all_eq_true, List.mem_map,
    List.mem_range, decide_eq_true_eq, forall_exists_index, and_imp]
  refine ⟨?_, ?_⟩
  · intro dp i _ hdp
    subst hdp
    simp only [List.length_map, List.length_range, true_and]
    exact challenge_shares_sum hash pp C v bf rnd hbase i
  · rw [hC, reconstruction pp v bf rnd hd hv]

end Range

/-! ### Public parameters and commitments -/

/-- What `Setup` guarantees of the parameters that it returns. -/
theorem setup_ok (rangeBase rangeDigits : Nat) (curveParams : CurveParams Grp)
    (pp : PublicParams Grp) (h : Setup rangeBase rangeDigits curveParams = .ok pp) :
    pp.rangeBase = rangeBase ∧ pp.rangeDigits = rangeDigits ∧ 2 ≤ rangeBase ∧ 1 ≤ rangeDigits ∧
    ∀ j, j < pp.rangeBase → Range.tableEntry pp j = (j : F) • pp.generatorG := by
  unfold Setup at h
  split_ifs at h with hc
  simp only [Except.ok.injEq] at h
  subst h
  refine ⟨rfl, rfl, by omega, by omega, ?_⟩
  intro j hj
  simp only [Range.tableEntry]
  rw [List.getD_eq_getElem _ _ (by simpa using hj)]
  simp [Nat.cast_smul_eq_nsmul]

theorem commit_sub (pp : PublicParams Grp) (w : TokenDataWitness F) (T : Grp)
    (h : pp.typeGenerators w.Type_ = T) :
    w.commit pp - T = (w.Value : F) • pp.generatorG + w.BlindingFactor • pp.generatorH := by
  unfold TokenDataWitness.commit Commit
  rw [h]
  abel

theorem declaredType_eq (ws : List (TokenDataWitness F)) (ttype : String)
    (h : ∀ w ∈ ws, w.Type_ = ttype) : ∀ w ∈ ws, w.Type_ = declaredType ws := by
  rcases ws with _ | ⟨w0, ws⟩
  · intro w hw; simp at hw
  · intro w hw
    rw [h w hw]
    exact (h w0 (List.mem_cons_self _ _)).symm

theorem getD_map_commit (pp : PublicParams Grp) (ws : List (TokenDataWitness F)) (k : Nat)
    (hk : k < ws.length) :
    (ws.map (fun w => w.commit pp)).getD k 0 = (ws.getD k default).commit pp := by
  rw [List.getD_eq_getElem _ _ (by simpa using hk), List.getD_eq_getElem _ _ hk,
    List.getElem_map]

theorem getD_mem {α : Type} (l : List α) (d : α) (k : Nat) (hk : k < l.length) :
    l.getD k d ∈ l := by
  rw [List.getD_eq_getElem _ _ hk]
  exact List.getElem_mem hk

/-! ### The sub-proofs of the honest provers -/

theorem rangeProofs_ok (hash : List Grp → F) (pp : PublicParams Grp)
    (ws : List (TokenDataWitness F)) (rnd : Nat → RangeRandomness F)
    (hv : ∀ w ∈ ws, w.Value < pp.rangeBase ^ pp.rangeDigits) :
    rangeProofs hash pp ws (ws.map (fun w => w.commit pp)) rnd =
      .ok ((List.range ws.length).map (fun k =>
        Range.assemble hash pp ((ws.getD k default).commit pp) (ws.getD k default).Value
          (ws.getD k default).BlindingFactor (rnd k))) := by
  unfold rangeProofs
  apply mapM_ok
  intro k hk
  have hk' := List.mem_range.mp hk
  rw [getD_map_commit pp ws k hk']
  exact Range.prove_ok hash pp _ _ _ _ (hv _ (getD_mem ws default k hk'))

theorem verifyRangeProofs_ok (hash : List Grp → F) (pp : PublicParams Grp)
    (ws : List (TokenDataWitness F)) (rnd : Nat → RangeRandomness F) (T : Grp)
    (htable : ∀ j, j < pp.rangeBase → Range.tableEntry pp j = (j : F) • pp.generatorG)
    (hbase : 0 < pp.rangeBase) (hd : 1 ≤ pp.rangeDigits)
    (hv : ∀ w ∈ ws, w.Value < pp.rangeBase ^ pp.rangeDigits)
    (hT : ∀ w ∈ ws, pp.typeGenerators w.Type_ = T) :
    verifyRangeProofs hash pp (ws.map (fun w => w.commit pp)) T
      ((List.range ws.length).map (fun k =>
        Range.assemble hash pp ((ws.getD k default).commit pp) (ws.getD k default).Value
          (ws.getD k default).BlindingFactor (rnd k))) = true := by
  unfold verifyRangeProofs
  rw [map_eq_map_range ws default (fun w => w.commit pp), zipWith_map_map]
  simp only [List.length_map, List.length_range, decide_True, Bool.true_and, List.all_eq_true,
    List.mem_map, List.mem_range, id, forall_exists_index, and_imp]
  intro b k hk hb
  rw [← hb]
  have hmem := getD_mem ws default k hk
  exact Range.verify_assemble hash pp _ T _ _ _ htable hbase hd (hv _ hmem)
    (commit_sub pp _ T (hT _ hmem))

theorem verifyOpenings_ok (pp : PublicParams Grp) (ws : List (TokenDataWitness F))
    (rnd : OpeningRandomness F) (c : F) (T : Grp)
    (hT : ∀ w ∈ ws, pp.typeGenerators w.Type_ = T) :
    verifyOpenings pp T c (ws.map (fun w => w.commit pp))
      ((List.range ws.length).map (openingMessage pp rnd))
      ((List.range ws.length).map (fun k => openingResponse rnd c k (ws.getD k default)))
      = true := by
  unfold verifyOpenings
  rw [map_eq_map_range ws default (fun w => w.commit pp), zip_map_map, zipWith_map_map]
  simp only [List.length_map, List.length_range, decide_True, Bool.true_and, List.all_eq_true,
    List.mem_map, List.mem_range, id, forall_exists_index, and_imp]
  intro b k hk hb
  rw [← hb, decide_eq_true_eq, commit_sub pp _ T (hT _ (getD_mem ws default k hk))]
  simp only [openingResponse, openingMessage]
  module

theorem sum_commit_sub (pp : PublicParams Grp) (T : Grp) (ws : List (TokenDataWitness F))
    (hT : ∀ w ∈ ws, pp.typeGenerators w.Type_ = T) :
    ((ws.map (fun w => w.commit pp)).map (fun C => C - T)).sum
      = (((ws.map (fun w => w.Value)).sum : Nat) : F) • pp.generatorG
        + (ws.map (fun w => w.BlindingFactor)).sum • pp.generatorH := by
  induction ws with
  | nil => simp
  | cons w ws ih =>
    simp only [List.map_cons, List.sum_cons, Nat.cast_add]
    rw [ih (fun x hx => hT x (List.mem_cons_of_mem w hx)),
      commit_sub pp w T (hT w (List.mem_cons_self _ _))]
    module

/-! ### The transfer verifier on the proofs of the honest prover -/

/-- The conservation check on the response of the honest prover fails exactly
when the challenge does not annihilate the difference of the values. -/
theorem conservation_check (c r x y a b : F) (G H : Grp) :
    ((r + c * (x - y)) • H ≠ r • H + c • (a • G + x • H - (b • G + y • H)))
      ↔ c • ((a - b) • G) ≠ 0 := by
  have key : r • H + c • (a • G + x • H - (b • G + y • H))
      = (r + c * (x - y)) • H + c • ((a - b) • G) := by
    module
  rw [key, ne_eq, ne_eq, not_iff_not]
  constructor
  · intro h
    simpa using h.symm
  · intro h
    rw [h, add_zero]

/-- What the transfer verifier answers on the proof of the honest prover,
when the output values are in the range: it accepts when the challenge `c`
annihilates the difference of the sums of the values, as an exponent of `G`,
and it reports the failure of the conservation identity otherwise. -/
theorem transfer_verify_honest (hash : List Grp → F) (rangeBase rangeDigits : Nat)
    (curveParams : CurveParams Grp) (pp : PublicParams Grp)
    (hpp : Setup rangeBase rangeDigits curveParams = .ok pp) (ttype : String)
    (inputWitnesses outputWitnesses : List (TokenDataWitness F))
    (htype : ∀ w ∈ inputWitnesses ++ outputWitnesses, w.Type_ = ttype)
    (hrange : ∀ w ∈ outputWitnesses, w.Value < rangeBase ^ rangeDigits)
    (rnd : Transfer.Randomness F) :
    ∃ proof,
      (Transfer.NewProver inputWitnesses outputWitnesses
        (inputWitnesses.map (fun w => w.commit pp)) (outputWitnesses.map (fun w => w.commit pp))
        pp).Prove hash rnd = .ok proof ∧
      (Transfer.NewVerifier (inputWitnesses.map (fun w => w.commit pp))
        (outputWitnesses.map (fun w => w.commit pp)) pp).Verify hash proof =
        if (Transfer.NewProver inputWitnesses outputWitnesses
            (inputWitnesses.map (fun w => w.commit pp))
            (outputWitnesses.map (fun w => w.commit pp)) pp).challenge hash rnd •
          (((((inputWitnesses.map (fun w => w.Value)).sum : Nat) : F)
            - (((outputWitnesses.map (fun w => w.Value)).sum : Nat) : F)) • pp.generatorG) = 0
        then none else some (.InvalidProofError .invalidTransfer) := by
  obtain ⟨hb, hd, hb2, hd1, htable⟩ := setup_ok (F := F) rangeBase rangeDigits curveParams pp hpp
  have hv : ∀ w ∈ outputWitnesses, w.Value < pp.rangeBase ^ pp.rangeDigits := by
    rw [hb, hd]; exact hrange
  have hT : ∀ w ∈ inputWitnesses ++ outputWitnesses,
      pp.typeGenerators w.Type_
        = pp.typeGenerators (declaredType (inputWitnesses ++ outputWitnesses)) :=
    fun w hw => congrArg pp.typeGenerators (declaredType_eq _ ttype htype w hw)
  have hTin := fun w hw => hT w (List.mem_append_left _ hw)
  have hTout := fun w hw => hT w (List.mem_append_right _ hw)
  simp only [Transfer.NewProver, Transfer.Prover.Prove, rangeProofs_ok hash pp _ _ hv,
    Except.ok.injEq, exists_eq_left', Transfer.NewVerifier, Transfer.Verifier.Verify,
    Transfer.Prover.challenge, Transfer.Prover.outputMessages]
  rw [if_neg (not_not.mpr rfl),
    if_neg (not_not.mpr (verifyOpenings_ok pp outputWitnesses rnd.opening _ _ hTout))]
  unfold Transfer.conservationIdentity
  rw [sum_commit_sub pp _ inputWitnesses hTin, sum_commit_sub pp _ outputWitnesses hTout]
  simp only [conservation_check, ne_eq, ite_not]
  rw [if_pos (verifyRangeProofs_ok hash pp outputWitnesses
    rnd.range _ htable (by omega) (by omega) hv hTout)]

/-- The scenario of `prepareInvalidInputsForZKTransfer`, on the concrete
instance: with the inputs 90 and 60 and the outputs 110 and 45 under
`Setup(100, 2)` the prover returns a proof and the verifier reports an invalid
transfer. -/
theorem transfer_unbalanced_scenario :
    ∃ pp, Setup 100 2 Test.curve = .ok pp ∧
      ∃ proof,
        (Transfer.NewProver Test.inputs Test.unbalancedOutputs
          (Test.inputs.map (fun w => w.commit pp))
          (Test.unbalancedOutputs.map (fun w => w.commit pp)) pp).Prove Test.hash
          Test.transferRandomness = .ok proof ∧
        (Transfer.NewVerifier (Test.inputs.map (fun w => w.commit pp))
          (Test.unbalancedOutputs.map (fun w => w.commit pp)) pp).Verify Test.hash proof
          = some (.InvalidProofError .invalidTransfer) :=
  ⟨_, rfl, _, rfl, by decide⟩

end Crypto

namespace Keys
open utf8

/-! ## The claims -/

/-- C7: `ValidateCompositeKeyAttribute(str)` returns nil if and only if `str`
is valid UTF-8 and none of its code points is U+0000 or U+10FFFF; it returns
the "not a valid utf8 string" error for every string that is not valid UTF-8,
and for valid UTF-8 whose first code point equal to U+0000 or U+10FFFF is `r`,
after the code points `pre`, the "not allowed" error with `r` and the byte
position of `r`, which is the length of the encoding of `pre`. The empty
string is accepted. -/
theorem validateCompositeKeyAttribute_spec :
    (∀ str : GoString, ValidateCompositeKeyAttribute str = none ↔
      ∃ rs : List Nat, (∀ r ∈ rs, ValidRune r) ∧ str = EncodeRunes rs ∧
        ∀ r ∈ rs, r ≠ 0 ∧ r ≠ 0x10FFFF) ∧
    (∀ str : GoString, ¬ ValidUTF8 str →
      ValidateCompositeKeyAttribute str = some (.notValidUtf8 str)) ∧
    (∀ (pre : List Nat) (r : Nat) (post : List Nat),
      (∀ x ∈ pre, ValidRune x ∧ x ≠ 0 ∧ x ≠ 0x10FFFF) → (r = 0 ∨ r = 0x10FFFF) →
      (∀ x ∈ post, ValidRune x) →
      ValidateCompositeKeyAttribute (EncodeRunes (pre ++ r :: post))
        = some (.notAllowed r (EncodeRunes pre).length)) ∧
    ValidateCompositeKeyAttribute [] = none := by
  refine ⟨?_, ?_, ?_, rfl⟩
  · intro str
    rw [validate_eq_none_iff]
    constructor
    · rintro ⟨rs, hrs, e⟩
      exact ⟨rs, fun r hr => (hrs r hr).1, e, fun r hr => (hrs r hr).2⟩
    · rintro ⟨rs, hv, e, hn⟩
      exact ⟨rs, fun r hr => ⟨hv r hr, hn r hr⟩, e⟩
  · intro str hstr
    have hv : ¬ ValidString str = true := fun h => hstr ((validString_iff str).mp h)
    unfold ValidateCompositeKeyAttribute
    rw [if_pos hv]
  · intro pre r post hpre hr hpost
    have hrv : ValidRune r := by
      rcases hr with rfl | rfl <;> decide
    have hv : ValidString (EncodeRunes (pre ++ r :: post)) = true := by
      refine (validString_iff _).mpr ⟨_, ?_, rfl⟩
      intro x hx
      rcases List.mem_append.mp hx with hx | hx
      · exact (hpre x hx).1
      · rcases List.mem_cons.mp hx with rfl | hx
        · exact hrv
        · exact hpost x hx
    unfold ValidateCompositeKeyAttribute
    rw [if_neg (by simpa using hv), validateLoop_first pre r post hpre hrv hr _ _ (le_refl _),
      Nat.zero_add]

/-- C7 at concrete inputs: "A", NUL, "B" is rejected at byte position 1; the
encoding of U+00E9 followed by that of U+10FFFF is rejected at byte position
2; an overlong encoding of NUL is not valid UTF-8. -/
theorem validateCompositeKeyAttribute_spec_witness :
    ValidateCompositeKeyAttribute [65, 0, 66] = some (.notAllowed 0 1) ∧
    ValidateCompositeKeyAttribute [0xC3, 0xA9, 0xF4, 0x8F, 0xBF, 0xBF]
      = some (.notAllowed 0x10FFFF 2) ∧
    ValidateCompositeKeyAttribute [0xC0, 0x80] = some (.notValidUtf8 [0xC0, 0x80]) ∧
    ValidateCompositeKeyAttribute (ascii "tx1") = none :=
  ⟨validateCompositeKeyAttribute_spec.2.2.1 [65] 0 [66] (by decide) (Or.inl rfl) (by decide),
    validateCompositeKeyAttribute_spec.2.2.1 [0xE9] 0x10FFFF [] (by decide) (Or.inr rfl)
      (by decide),
    by decide,
    (validateCompositeKeyAttribute_spec.1 (ascii "tx1")).mpr
      ⟨[116, 120, 49], by decide, by decide, by decide⟩⟩

/-- C6: `CreateCompositeKey(objectType, attributes)` returns an error if and
only if `objectType` or one of the attributes fails
`ValidateCompositeKeyAttribute`, the error being that of the first failing
string in the order objectType, attributes[0], attributes[1], ...; otherwise
it returns a NUL byte, then `objectType` and each attribute in order, each
followed by one NUL byte. In particular `CreateTokenKey(txID, index)` is the
error of `txID` when `txID` fails the validation and otherwise
"\x00ztoken\x00" + txID + "\x00" + decimal(index) + "\x00", and
`CreateTokenRequestKey(txID)` is the error of `txID` or
"\x00ztoken\x00token_request\x00" + txID + "\x00". -/
theorem createCompositeKey_spec :
    (∀ (objectType : GoString) (attributes : List GoString),
      ((∃ err, CreateCompositeKey objectType attributes = .error err) ↔
        ∃ s ∈ objectType :: attributes, ValidateCompositeKeyAttribute s ≠ none) ∧
      (∀ (pre : List GoString) (s : GoString) (post : List GoString) (err : Error),
        objectType :: attributes = pre ++ s :: post →
        (∀ x ∈ pre, ValidateCompositeKeyAttribute x = none) →
        ValidateCompositeKeyAttribute s = some err →
        CreateCompositeKey objectType attributes = .error err) ∧
      ((∀ s ∈ objectType :: attributes, ValidateCompositeKeyAttribute s = none) →
        CreateCompositeKey objectType attributes
          = .ok ([(0 : Byte)] ++ objectType ++ [(0 : Byte)] ++ joinNul attributes))) ∧
    (∀ (txID : GoString) (index : Int), -(2 ^ 63) ≤ index → index < 2 ^ 63 →
      CreateTokenKey txID index =
        match ValidateCompositeKeyAttribute txID with
        | some err => .error err
        | none => .ok ([(0 : Byte)] ++ ascii "ztoken" ++ [(0 : Byte)] ++ txID ++ [(0 : Byte)]
            ++ decimal index ++ [(0 : Byte)])) ∧
    (∀ txID : GoString,
      CreateTokenRequestKey txID =
        match ValidateCompositeKeyAttribute txID with
        | some err => .error err
        | none => .ok ([(0 : Byte)] ++ ascii "ztoken" ++ [(0 : Byte)] ++ ascii "token_request"
            ++ [(0 : Byte)] ++ txID ++ [(0 : Byte)])) := by
  refine ⟨?_, ?_, ?_⟩
  · intro objectType attributes
    refine ⟨?_, ?_, ?_⟩
    · constructor
      · rintro ⟨err, he⟩
        by_contra hcon
        have hall : ∀ s ∈ objectType :: attributes, ValidateCompositeKeyAttribute s = none := by
          intro s hs
          by_contra hne
          exact hcon ⟨s, hs, hne⟩
        rw [createCompositeKey_ok objectType attributes hall] at he
        exact absurd he (by simp)
      · rintro ⟨s, hs, hne⟩
        rcases all_valid_or_first (objectType :: attributes) with hall | ⟨pre, x, post, err, e, hp, hx⟩
        · exact absurd (hall s hs) hne
        · exact ⟨err, createCompositeKey_error objectType attributes pre x post err e hp hx⟩
    · intro pre s post err e hp hs
      exact createCompositeKey_error objectType attributes pre s post err e hp hs
    · intro hall
      rw [createCompositeKey_ok objectType attributes hall]
      simp [joinNul]
  · intro txID index hlo hhi
    unfold CreateTokenKey
    cases hv : ValidateCompositeKeyAttribute txID with
    | some err =>
      exact createCompositeKey_error TokenKeyPrefix _ [TokenKeyPrefix] txID [strconv.Itoa index]
        err rfl (by decide) hv
    | none =>
      have hidx := (validate_eq_none_iff _).mpr (allowedString_itoa index)
      rw [createCompositeKey_ok, strconv.itoa_eq_decimal index hlo hhi]
      · simp [joinNul, TokenKeyPrefix]
      · intro s hs
        simp only [List.mem_cons, List.mem_singleton, List.not_mem_nil, or_false] at hs
        rcases hs with rfl | rfl | rfl
        · decide
        · exact hv
        · exact hidx
  · intro txID
    unfold CreateTokenRequestKey
    cases hv : ValidateCompositeKeyAttribute txID with
    | some err =>
      exact createCompositeKey_error TokenKeyPrefix _ [TokenKeyPrefix, TokenRequestKeyPrefix] txID
        [] err rfl (by decide) hv
    | none =>
      rw [createCompositeKey_ok]
      · simp [joinNul, TokenKeyPrefix, TokenRequestKeyPrefix]
      · intro s hs
        simp only [List.mem_cons, List.mem_singleton, List.not_mem_nil, or_false] at hs
        rcases hs with rfl | rfl | rfl
        · decide
        · decide
        · exact hv

/-- C6 at concrete inputs: with the attributes "a", an invalid byte and a NUL
the error is that of the invalid byte, the first string that fails; the key
of output 42 of transaction "tx1". -/
theorem createCompositeKey_spec_witness :
    CreateCompositeKey (ascii "ztoken") [ascii "a", [0xFF], [0]]
      = .error (.notValidUtf8 [0xFF]) ∧
    CreateCompositeKey [] [ascii "a", []] = .ok [0, 0, 97, 0, 0] ∧
    CreateTokenKey (ascii "tx1") 42
      = .ok ([(0 : Byte)] ++ ascii "ztoken" ++ [(0 : Byte)] ++ ascii "tx1" ++ [(0 : Byte)]
          ++ decimal 42 ++ [(0 : Byte)]) :=
  ⟨(createCompositeKey_spec.1 (ascii "ztoken") [ascii "a", [0xFF], [0]]).2.1
      [ascii "ztoken", ascii "a"] [0xFF] [[0]] (.notValidUtf8 [0xFF]) rfl (by decide) (by decide),
    (createCompositeKey_spec.1 [] [ascii "a", []]).2.2 (by decide),
    createCompositeKey_spec.2.1 (ascii "tx1") 42 (by decide) (by decide)⟩

/-- C8: for every `objectType` and attributes that all pass
`ValidateCompositeKeyAttribute`, `CreateCompositeKey` succeeds, and
`SplitCompositeKey` on its key returns `(objectType, attributes, nil)` when
there are at least two attributes, empty strings included, and the
"not enough components" error when there are fewer; so the key of
`CreateSetupKey` cannot be split. -/
theorem splitCompositeKey_createCompositeKey (objectType : GoString)
    (attributes : List GoString)
    (h : ∀ s ∈ objectType :: attributes, ValidateCompositeKeyAttribute s = none) :
    (∃ key, CreateCompositeKey objectType attributes = .ok key ∧
      (2 ≤ attributes.length → SplitCompositeKey key = .ok (objectType, attributes)) ∧
      (attributes.length < 2 → SplitCompositeKey key =
        .error (.notEnoughComponents key (attributes.length + 1) (objectType :: attributes)))) ∧
    (∃ key, CreateSetupKey = .ok key ∧
      SplitCompositeKey key =
        .error (.notEnoughComponents key 2 [TokenKeyPrefix, TokenSetupKeyPrefix])) := by
  refine ⟨⟨_, createCompositeKey_ok objectType attributes h, ?_, ?_⟩, ⟨_, rfl, by decide⟩⟩
  · intro h2
    have hz : ∀ c ∈ objectType :: attributes, (0 : Byte) ∉ c :=
      fun c hc => zero_not_mem_of_validate (h c hc)
    have hs := splitCompositeKey_of_components 0 _ hz [] (by simp)
    rw [List.append_nil] at hs
    rw [hs, if_neg (by simp only [List.length_cons]; omega)]
    rfl
  · intro h2
    have hz : ∀ c ∈ objectType :: attributes, (0 : Byte) ∉ c :=
      fun c hc => zero_not_mem_of_validate (h c hc)
    have hs := splitCompositeKey_of_components 0 _ hz [] (by simp)
    rw [List.append_nil] at hs
    rw [hs, if_pos (by simp only [List.length_cons]; omega)]
    rfl

/-- C8 at concrete inputs: an empty object type with the attributes "" and
"a" is recovered; a key with one attribute is not. -/
theorem splitCompositeKey_createCompositeKey_witness :
    (∃ key, CreateCompositeKey [] [[], ascii "a"] = .ok key ∧
      SplitCompositeKey key = .ok ([], [[], ascii "a"])) ∧
    (∃ key, CreateCompositeKey (ascii "ztoken") [ascii "setup"] = .ok key ∧
      SplitCompositeKey key =
        .error (.notEnoughComponents key 2 [ascii "ztoken", ascii "setup"])) := by
  obtain ⟨⟨k1, e1, s1, -⟩, -⟩ :=
    splitCompositeKey_createCompositeKey [] [[], ascii "a"] (by decide)
  obtain ⟨⟨k2, e2, -, s2⟩, -⟩ :=
    splitCompositeKey_createCompositeKey (ascii "ztoken") [ascii "setup"] (by decide)
  exact ⟨⟨k1, e1, s1 (by decide)⟩, ⟨k2, e2, s2 (by decide)⟩⟩

/-- C5: for every `txID` that is valid UTF-8 and contains neither U+0000 nor
U+10FFFF and every index with 0 <= index < 2^32, `CreateTokenKey(txID, index)`
succeeds with a key `k`, and `GetTokenIdFromKey(k)` succeeds and returns the
Id with `TxId = txID` and `Index = index`; the same holds for the keys of
`CreateFabtokenKey`, `CreateAuditTokenKey` and `CreateIssuedHistoryTokenKey`. -/
theorem getTokenIdFromKey_createTokenKey (txID : GoString) (index : Int)
    (htx : AllowedString txID) (h0 : 0 ≤ index) (h1 : index < 2 ^ 32) :
    (∃ k, CreateTokenKey txID index = .ok k ∧
      GetTokenIdFromKey k = .ok { TxId := txID, Index := index.toNat }) ∧
    (∃ k, CreateFabtokenKey txID index = .ok k ∧
      GetTokenIdFromKey k = .ok { TxId := txID, Index := index.toNat }) ∧
    (∃ k, CreateAuditTokenKey txID index = .ok k ∧
      GetTokenIdFromKey k = .ok { TxId := txID, Index := index.toNat }) ∧
    (∃ k, CreateIssuedHistoryTokenKey txID index = .ok k ∧
      GetTokenIdFromKey k = .ok { TxId := txID, Index := index.toNat }) := by
  obtain ⟨n, rfl⟩ := Int.eq_ofNat_of_zero_le h0
  have hn : n < 2 ^ 32 := by exact_mod_cast h1
  rw [Int.toNat_ofNat]
  exact ⟨getTokenIdFromKey_create TokenKeyPrefix txID n (by decide) htx hn,
    getTokenIdFromKey_create FabTokenKeyPrefix txID n (by decide) htx hn,
    getTokenIdFromKey_create AuditTokenKeyPrefix txID n (by decide) htx hn,
    getTokenIdFromKey_create IssuedHistoryTokenKeyPrefix txID n (by decide) htx hn⟩

/-- C5 at a concrete input: the last output index, 2^32 - 1, of the
transaction "tx1". -/
theorem getTokenIdFromKey_createTokenKey_witness :
    AllowedString (ascii "tx1") ∧
    ∃ k, CreateTokenKey (ascii "tx1") 4294967295 = .ok k ∧
      GetTokenIdFromKey k = .ok { TxId := ascii "tx1", Index := 4294967295 } :=
  ⟨⟨[116, 120, 49], by decide, by decide⟩,
    (getTokenIdFromKey_createTokenKey (ascii "tx1") 4294967295
      ⟨[116, 120, 49], by decide, by decide⟩ (by decide) (by decide)).1⟩

/-- C9, as amended: `GetTokenIdFromKey(key)` succeeds if and only if `key`
has exactly three NUL bytes at byte positions >= 1, that is
`key = b c0 NUL c1 NUL c2 NUL last` with no NUL in `c0`, `c1`, `c2`, `last`,
and the last of the three NUL-terminated components, `c2`, parses under
`strconv.Atoi`; on success `TxId` is the second component `c1` and `Index`
is the parsed number converted to `uint32`. Every key of `CreateTokenMineKey`
(three components after the prefix) and the key of `CreateSetupKey` (one
component after the prefix) is rejected for its number of components; the key
of `CreateSetupBundleKey` has exactly two components after the prefix, is
split without error, and is rejected because "bundle" does not parse. -/
theorem getTokenIdFromKey_spec :
    (∀ (key : GoString) (id : Id), GetTokenIdFromKey key = .ok id ↔
      ∃ (b : Byte) (c0 c1 c2 last : GoString) (n : Int),
        key = b :: (c0 ++ (0 : Byte) :: (c1 ++ (0 : Byte) :: (c2 ++ (0 : Byte) :: last))) ∧
        (0 : Byte) ∉ c0 ∧ (0 : Byte) ∉ c1 ∧ (0 : Byte) ∉ c2 ∧ (0 : Byte) ∉ last ∧
        strconv.Atoi c2 = .ok n ∧ id = { TxId := c1, Index := uint32 n }) ∧
    (∀ key : GoString, (∃ id, GetTokenIdFromKey key = .ok id) ↔
      (key.drop 1).count 0 = 3 ∧
        ∃ n, strconv.Atoi ((components [] (key.drop 1)).getD 2 []) = .ok n) ∧
    (∀ (txID : GoString) (index : Int) (key : GoString),
      CreateTokenMineKey txID index = .ok key →
      GetTokenIdFromKey key =
        .error (.wrongNumberOfComponents [TokenMineKeyPrefix, txID, strconv.Itoa index])) ∧
    (∃ key, CreateSetupKey = .ok key ∧
      GetTokenIdFromKey key = .error (.errorSplitting
        (.notEnoughComponents key 2 [TokenKeyPrefix, TokenSetupKeyPrefix]))) ∧
    (∃ key, CreateSetupBundleKey = .ok key ∧
      SplitCompositeKey key = .ok (TokenKeyPrefix, [TokenSetupKeyPrefix, ascii "bundle"]) ∧
      GetTokenIdFromKey key = .error (.errorParsingIndex (ascii "bundle") .ErrSyntax)) := by
  refine ⟨getTokenIdFromKey_ok_iff, ?_, ?_, ⟨_, rfl, by decide⟩, ⟨_, rfl, by decide, by decide⟩⟩
  · intro key
    rw [List.drop_one, ← length_components, getTokenIdFromKey_eq]
    rcases components [] key.tail with _ | ⟨c0, _ | ⟨c1, _ | ⟨c2, _ | ⟨c3, cs⟩⟩⟩⟩
    · simp
    · simp
    · simp
    · simp only [List.length_cons, List.length_nil, List.getD_cons_succ, List.getD_cons_zero,
        true_and]
      cases strconv.Atoi c2 <;> simp
    · simp
  · intro txID index key hk
    unfold CreateTokenMineKey at hk
    cases hv : ValidateCompositeKeyAttribute txID with
    | some err =>
      have he : CreateCompositeKey TokenKeyPrefix [TokenMineKeyPrefix, txID, strconv.Itoa index]
          = .error err :=
        createCompositeKey_error TokenKeyPrefix _ [TokenKeyPrefix, TokenMineKeyPrefix] txID
          [strconv.Itoa index] err rfl (by decide) hv
      rw [he] at hk
      exact absurd hk (by simp)
    | none =>
      have hidx := (validate_eq_none_iff _).mpr (allowedString_itoa index)
      have hall : ∀ s ∈ TokenKeyPrefix :: [TokenMineKeyPrefix, txID, strconv.Itoa index],
          ValidateCompositeKeyAttribute s = none := by
        intro s hs
        simp only [List.mem_cons, List.mem_singleton, List.not_mem_nil, or_false] at hs
        rcases hs with rfl | rfl | rfl | rfl
        · decide
        · decide
        · exact hv
        · exact hidx
      rw [createCompositeKey_ok _ _ hall] at hk
      simp only [Except.ok.injEq] at hk
      subst hk
      have hz : ∀ c ∈ TokenKeyPrefix :: [TokenMineKeyPrefix, txID, strconv.Itoa index],
          (0 : Byte) ∉ c := fun c hc => zero_not_mem_of_validate (hall c hc)
      have hc := components_joinNul _ hz [] (by simp)
      rw [List.append_nil] at hc
      rw [getTokenIdFromKey_eq, List.tail_cons, hc]

/-- C9 at concrete inputs: a key with the index "-1" is accepted, with the
index converted to `uint32`; the key of output 42 of "tx1" for `mine` is
rejected. -/
theorem getTokenIdFromKey_spec_witness :
    GetTokenIdFromKey (ascii "_ztoken" ++ [0] ++ ascii "tx1" ++ [0] ++ ascii "-1" ++ [0])
      = .ok { TxId := ascii "tx1", Index := 4294967295 } ∧
    (∃ key, CreateTokenMineKey (ascii "tx1") 42 = .ok key ∧
      GetTokenIdFromKey key =
        .error (.wrongNumberOfComponents [ascii "mine", ascii "tx1", ascii "42"])) :=
  ⟨(getTokenIdFromKey_spec.1 _ _).mpr
      ⟨95, ascii "ztoken", ascii "tx1", ascii "-1", [], -1, by decide, by decide, by decide,
        by decide, by decide, by decide, by decide⟩,
    ⟨_, rfl, getTokenIdFromKey_spec.2.2.1 (ascii "tx1") 42 _ rfl⟩⟩

/-- C9, the claim as written fails on `CreateSetupBundleKey`: its key does not
have fewer than two components after the prefix. `SplitCompositeKey` returns
the two components "setup" and "bundle" without error, which is the number
`GetTokenIdFromKey` expects. -/
theorem setupBundleKey_has_two_components :
    ∃ key components, CreateSetupBundleKey = .ok key ∧
      SplitCompositeKey key = .ok (TokenKeyPrefix, components) ∧
      components = [ascii "setup", ascii "bundle"] ∧
      ¬ components.length < 2 ∧ components.length = numComponentsInKey :=
  ⟨_, _, rfl, rfl, rfl, by decide, by decide⟩

end Keys

namespace Crypto

variable {F : Type} [CommRing F] [DecidableEq F]
variable {Grp : Type} [AddCommGroup Grp] [Module F Grp] [DecidableEq Grp]

/-- C1 (transfer completeness): under public parameters from
`Setup(rangeBase, rangeDigits, curveParams)`, for all input and output
witnesses of one type, with the commitments built from them, such that the
sum of the input values equals the sum of the output values and every
output value is below `rangeBase^rangeDigits`, and for all the scalars
that the prover samples, `transfer.Prover.Prove()` returns a proof and no
error, and `transfer.Verifier.Verify(proof)` over the same commitments
returns nil. -/
theorem transfer_verify_prove (hash : List Grp → F) (rangeBase rangeDigits : Nat)
    (curveParams : CurveParams Grp) (pp : PublicParams Grp)
    (hpp : Setup rangeBase rangeDigits curveParams = .ok pp) (ttype : String)
    (inputWitnesses outputWitnesses : List (TokenDataWitness F))
    (htype : ∀ w ∈ inputWitnesses ++ outputWitnesses, w.Type_ = ttype)
    (hsum : (inputWitnesses.map (fun w => w.Value)).sum
      = (outputWitnesses.map (fun w => w.Value)).sum)
    (hrange : ∀ w ∈ outputWitnesses, w.Value < rangeBase ^ rangeDigits)
    (rnd : Transfer.Randomness F) :
    ∃ proof,
      (Transfer.NewProver inputWitnesses outputWitnesses
        (inputWitnesses.map (fun w => w.commit pp)) (outputWitnesses.map (fun w => w.commit pp))
        pp).Prove hash rnd = .ok proof ∧
      (Transfer.NewVerifier (inputWitnesses.map (fun w => w.commit pp))
        (outputWitnesses.map (fun w => w.commit pp)) pp).Verify hash proof = none := by
  obtain ⟨proof, hp, hverify⟩ := transfer_verify_honest hash rangeBase rangeDigits curveParams
    pp hpp ttype inputWitnesses outputWitnesses htype hrange rnd
  refine ⟨proof, hp, ?_⟩
  rw [hverify, hsum, sub_self, zero_smul, smul_zero, if_pos rfl]

/-- C1 at the input of the test: inputs 90 and 60, outputs 50 and 100,
`Setup(100, 2)`. -/
theorem transfer_verify_prove_witness :
    ∃ pp, Setup 100 2 Test.curve = .ok pp ∧
      ∃ proof,
        (Transfer.NewProver Test.inputs Test.outputs (Test.inputs.map (fun w => w.commit pp))
          (Test.outputs.map (fun w => w.commit pp)) pp).Prove Test.hash Test.transferRandomness
          = .ok proof ∧
        (Transfer.NewVerifier (Test.inputs.map (fun w => w.commit pp))
          (Test.outputs.map (fun w => w.commit pp)) pp).Verify Test.hash proof = none :=
  ⟨_, rfl, transfer_verify_prove Test.hash 100 2 Test.curve _ rfl "ABC" Test.inputs Test.outputs
    (by decide) (by decide) (by decide) Test.transferRandomness⟩

/-- C4 (issue completeness): under public parameters from
`Setup(rangeBase, rangeDigits, curveParams)`, for every list of token
witnesses of one type with values below `rangeBase^rangeDigits`, with the
commitments built from them, and for all the scalars that the prover
samples, `issue.NewProver(witnesses, commitments, true, pp).Prove()` returns
a proof and no error, and `issue.NewVerifier(commitments, true,
pp).Verify(proof)` returns nil. -/
theorem issue_verify_prove (hash : List Grp → F) (rangeBase rangeDigits : Nat)
    (curveParams : CurveParams Grp) (pp : PublicParams Grp)
    (hpp : Setup rangeBase rangeDigits curveParams = .ok pp) (ttype : String)
    (witnesses : List (TokenDataWitness F))
    (htype : ∀ w ∈ witnesses, w.Type_ = ttype)
    (hrange : ∀ w ∈ witnesses, w.Value < rangeBase ^ rangeDigits)
    (rnd : Issue.Randomness F) :
    ∃ proof,
      (Issue.NewProver witnesses (witnesses.map (fun w => w.commit pp)) true pp).Prove hash rnd
        = .ok proof ∧
      (Issue.NewVerifier (witnesses.map (fun w => w.commit pp)) true pp).Verify hash proof
        = none := by
  obtain ⟨hb, hd, hb2, hd1, htable⟩ := setup_ok (F := F) rangeBase rangeDigits curveParams pp hpp
  have hv : ∀ w ∈ witnesses, w.Value < pp.rangeBase ^ pp.rangeDigits := by
    rw [hb, hd]; exact hrange
  have hT : ∀ w ∈ witnesses,
      pp.typeGenerators w.Type_ = pp.typeGenerators (declaredType witnesses) :=
    fun w hw => congrArg pp.typeGenerators (declaredType_eq _ ttype htype w hw)
  simp only [Issue.NewProver, Issue.Prover.Prove, List.length_map, ne_eq, not_true_eq_false,
    if_false, if_true, rangeProofs_ok hash pp _ _ hv, Except.ok.injEq, exists_eq_left',
    Issue.NewVerifier, Issue.Verifier.Verify]
  rw [if_neg (not_not.mpr (verifyOpenings_ok pp witnesses rnd.opening _ _ hT)), if_neg]
  rw [not_and, not_not]
  intro _
  exact verifyRangeProofs_ok hash pp witnesses rnd.range _ htable (by omega) (by omega) hv hT

/-- C4 at the input of the test: the values 120 and 190 of type "ABC",
`Setup(100, 2)`. -/
theorem issue_verify_prove_witness :
    ∃ pp, Setup 100 2 Test.curve = .ok pp ∧
      ∃ proof,
        (Issue.NewProver Test.issued (Test.issued.map (fun w => w.commit pp)) true pp).Prove
          Test.hash Test.issueRandomness = .ok proof ∧
        (Issue.NewVerifier (Test.issued.map (fun w => w.commit pp)) true pp).Verify Test.hash
          proof = none :=
  ⟨_, rfl, issue_verify_prove Test.hash 100 2 Test.curve _ rfl "ABC" Test.issued
    (by decide) (by decide) Test.issueRandomness⟩

end Crypto
